import Mathlib

/-!
Verification development for the GraphRAG retrieval and identity-resolution
engine (entity resolution, graph traversal, hybrid retrieval, caching).

The definitions below are a shallow embedding of the Python modules
  GraphRAG/graphrag/engine/entity_resolution.py
  GraphRAG/graphrag/engine/graph_traversal.py
  GraphRAG/graphrag/engine/rag_engine.py
  GraphRAG/graphrag/db/graph_db.py
  GraphRAG/graphrag/db/graph_schema.py
  data_services/redis_cache.py
The labelled-property graph store is modelled as an explicit state
(a list of nodes and a list of directed, typed edges); each fixed Cypher
query template issued by the engine is translated to a Lean function with
the corresponding semantics.  External collaborators (the fuzzy string
scorer, the embedding model, the vector store search) are injected as an
environment of pure functions, mirroring the constructor injection in the
source.
-/

namespace GraphRAG

/-- Property values stored on nodes, relationships and candidate records.
Scalar values only: strings, booleans and numbers (floats are modelled as
rationals).  List/json valued properties do not occur on the code paths
modelled here. -/
inductive PVal where
  | str (s : String)
  | bool (b : Bool)
  | num (q : Rat)
deriving DecidableEq

/-- Python truthiness for property values: empty string, False and 0 are
falsy, everything else is truthy. -/
def PVal.truthy : PVal → Bool
  | .str s => !(s == "")
  | .bool b => b
  | .num q => !(q == 0)

/-- A property map, in insertion order (Python dict). -/
abbrev Props := List (String × PVal)

/-- First value bound to a key. -/
def getProp (ps : Props) (k : String) : Option PVal :=
  (ps.find? (fun kv => kv.1 == k)).map (fun kv => kv.2)

/-- Update a key in place if present (keeping its position, as a Python
dict does), else append it. -/
def setProp (ps : Props) (k : String) (v : PVal) : Props :=
  if ps.any (fun kv => kv.1 == k) then
    ps.map (fun kv => if kv.1 == k then (k, v) else kv)
  else ps ++ [(k, v)]

/-- Apply a sequence of updates left to right (Cypher SET n += $props). -/
def setProps (ps : Props) (upd : Props) : Props :=
  upd.foldl (fun acc kv => setProp acc kv.1 kv.2) ps

/-- A node of the labelled-property graph.  The globally unique id property
is held in its own field; `GNode.prop` exposes it uniformly with the other
properties. -/
structure GNode where
  id : String
  labels : List String
  props : Props
deriving DecidableEq

/-- Property access on a node, treating the id as an ordinary property
(as Cypher `n.id` does). -/
def GNode.prop (n : GNode) (k : String) : Option PVal :=
  if k == "id" then some (.str n.id) else getProp n.props k

/-- A directed, typed relationship, referring to its endpoints by node id. -/
structure GEdge where
  src : String
  typ : String
  tgt : String
  props : Props
deriving DecidableEq

/-- The graph store state. -/
structure GraphState where
  nodes : List GNode
  edges : List GEdge
deriving DecidableEq

/-- MATCH (n) WHERE n.id = $id ... LIMIT 1. -/
def findNode (st : GraphState) (i : String) : Option GNode :=
  st.nodes.find? (fun n => n.id == i)

/-- MATCH (n:label) WHERE n.id = $id ... LIMIT 1. -/
def findNodeByLabel (st : GraphState) (label : String) (i : String) : Option GNode :=
  st.nodes.find? (fun n => n.id == i && n.labels.contains label)

/-- A candidate entity record handed to the resolution engine
(`entity_data`).  The scalar keys live in `props`; the two non-scalar keys
the engine consults, `social_handles` (a platform-to-handle map) and
`relationships` (a list of relationship-hint maps), are carried apart.
`none` models absence of the key. -/
structure EntityData where
  props : Props
  social_handles : Option (List (String × PVal)) := none
  relationships : Option (List Props) := none

/-- A hit returned by `vector_db.search` (entity_resolution.py path):
the similarity score and the id stored in the point payload. -/
structure SearchHit where
  score : Rat
  payloadId : String

/-- A hit returned by `vector_db.search_vectors` (rag_engine.py path). -/
structure VecHit where
  id : String
  score : Rat
  payload : Props
deriving DecidableEq

/-- The injected collaborators of the engines, modelled as pure functions:
`fuzzScore` is fuzz.token_sort_ratio (a score in [0,100]),
`getEmbedding` is embedding_service.get_embedding,
`genEmbedding` is embedding_service.generate_embedding,
`vdbSearch` is vector_db.search(collection, vector, limit),
`searchVectors` is vector_db.search_vectors(collection, vector, limit),
`pyHash` is Python hash() on strings,
`coldStore` is data_services.cold_storage.store_in_cold_storage,
together with the resolution thresholds held on EntityResolutionEngine. -/
structure Env where
  fuzzScore : String → String → Nat
  getEmbedding : String → List Rat
  genEmbedding : String → List Rat
  vdbSearch : String → List Rat → Nat → List SearchHit
  searchVectors : String → List Rat → Nat → List VecHit
  pyHash : String → Int
  coldStore : GNode → String
  similarity_threshold : Rat := 0.85
  fuzzy_match_threshold : Nat := 85

/-- EntityResolutionEngine._normalize_phone: keep only digit characters. -/
def normalize_phone (phone : String) : String :=
  ⟨phone.data.filter Char.isDigit⟩

/-- Phone values are strings on the modelled paths; a non-string value is
returned unchanged (Python would raise on iterating it). -/
def normalize_phone_val : PVal → PVal
  | .str s => .str (normalize_phone s)
  | v => v

/-- Drop every trailing slash (Python str.rstrip). -/
def rstripSlash (s : String) : String :=
  ⟨(s.data.reverse.dropWhile (fun c => c == '/')).reverse⟩

/-- Strip one leading occurrence of a given literal. -/
def stripLeading (s : String) (lit : String) : String :=
  if s.startsWith lit then s.drop lit.length else s

/-- EntityResolutionEngine._normalize_url: lowercase, strip the
https/http/www prefixes in that order, then strip trailing slashes. -/
def normalize_url (url : String) : String :=
  let u := url.toLower
  let u := stripLeading u "https://"
  let u := stripLeading u "http://"
  let u := stripLeading u "www."
  rstripSlash u

/-- URL values are strings on the modelled paths. -/
def normalize_url_val : PVal → PVal
  | .str s => .str (normalize_url s)
  | v => v

/-- The identifier list assembled by _match_by_identifiers, in source
order, per entity type. -/
def identifier_candidates (d : EntityData) (entity_type : String) :
    List (String × PVal) :=
  if entity_type == "Person" then
    (match getProp d.props "email" with
      | some v => [("email", v)] | none => [])
    ++ (match getProp d.props "phone" with
      | some v => [("phone", normalize_phone_val v)] | none => [])
    ++ (match d.social_handles with
      | some hs => hs.map (fun ph => ("social_handles." ++ ph.1, ph.2))
      | none => [])
  else if entity_type == "Organization" then
    (match getProp d.props "website" with
      | some v => [("website", normalize_url_val v)] | none => [])
    ++ (match getProp d.props "domain" with
      | some v => [("domain", v)] | none => [])
    ++ (match getProp d.props "tax_id" with
      | some v => [("tax_id", v)] | none => [])
  else if entity_type == "Location" then
    (match getProp d.props "coordinates" with
      | some v => [("coordinates", v)] | none => [])
    ++ (match getProp d.props "address", getProp d.props "postal_code" with
      | some a, some p => [("address", a), ("postal_code", p)]
      | _, _ => [])
  else []

/-- EntityResolutionEngine._match_by_identifiers: for each identifier with
a truthy value, run MATCH (e:type) WHERE e.prop = $value RETURN e LIMIT 1
and return the first hit. -/
def match_by_identifiers (st : GraphState) (d : EntityData)
    (entity_type : String) : Option GNode :=
  (identifier_candidates d entity_type).findSome? (fun pv =>
    if pv.2.truthy then
      st.nodes.find? (fun n =>
        n.labels.contains entity_type && n.prop pv.1 == some pv.2)
    else none)

/-- The name field used by the fuzzy and embedding matchers: "name" when
the candidate has that key, else "text". -/
def name_field (d : EntityData) : String :=
  if (getProp d.props "name").isSome then "name" else "text"

/-- Pick the earliest element with the maximal score, mirroring thefuzz
process.extractBests (heapq.nlargest is stable, so the earlier candidate
wins a tie). -/
def bestBy (score : String → Nat) : List String → Option (String × Nat)
  | [] => none
  | c :: cs =>
    match bestBy score cs with
    | none => some (c, score c)
    | some (b, sb) => if sb ≤ score c then some (c, score c) else some (b, sb)

/-- EntityResolutionEngine._match_by_fuzzy_name: sample up to 100 nodes of
the type, keep the candidates with a truthy name, score them with
token_sort_ratio, take the best match if it clears the threshold, and
fetch the corresponding node. -/
def match_by_fuzzy_name (env : Env) (st : GraphState) (d : EntityData)
    (entity_type : String) : Option GNode :=
  let nf := name_field d
  match getProp d.props nf with
  | none => none
  | some entity_name =>
    match entity_name with
    | .str query_name =>
      -- MATCH (e:type) RETURN e.id AS id, e.nf AS name LIMIT 100
      let candidates :=
        ((st.nodes.filter (fun n => n.labels.contains entity_type)).take 100).map
          (fun n => (n.id, n.prop nf))
      -- candidate_names keeps pairs whose name is truthy (names are strings
      -- on the modelled paths)
      let candidate_names := candidates.filterMap (fun cn =>
        match cn.2 with
        | some (.str s) => if (PVal.str s).truthy then some (cn.1, s) else none
        | _ => none)
      if candidate_names.isEmpty then none
      else
        match bestBy (env.fuzzScore query_name) (candidate_names.map (fun c => c.2)) with
        | none => none
        | some (best_name, best_score) =>
          if best_score < env.fuzzy_match_threshold then none
          else
            match candidate_names.find? (fun c => c.2 == best_name) with
            | none => none
            | some c =>
              -- MATCH (e:type) WHERE e.id = $id RETURN e
              findNodeByLabel st entity_type c.1
    | _ => none

/-- EntityResolutionEngine._match_by_embedding: embed name (+description),
search the type-scoped collection with limit 5, and return the first hit
at or above the similarity threshold whose payload id resolves to a node. -/
def match_by_embedding (env : Env) (st : GraphState) (d : EntityData)
    (entity_type : String) : Option GNode :=
  let nf := name_field d
  match getProp d.props nf with
  | none => none
  | some entity_name =>
    match entity_name with
    | .str base =>
      let entity_text :=
        match getProp d.props "description" with
        | some (.str ds) => base ++ " " ++ ds
        | _ => base
      let emb := env.getEmbedding entity_text
      let search_results := env.vdbSearch entity_type emb 5
      search_results.findSome? (fun r =>
        if env.similarity_threshold ≤ r.score then
          -- MATCH (e:type) WHERE e.id = $id RETURN e
          findNodeByLabel st entity_type r.payloadId
        else none)
    | _ => none

/-- The other endpoint of an edge incident on a given node id, if any. -/
def otherEnd (e : GEdge) (i : String) : Option String :=
  if e.src == i then some e.tgt
  else if e.tgt == i then some e.src
  else none

/-- Number of relationships of a node to nodes whose id is in the hint
list (Cypher count(other) over MATCH (e:type)-[]-(other) WHERE other.id IN
$related_ids). -/
def sharedCount (st : GraphState) (n : GNode) (related : List PVal) : Nat :=
  (st.edges.filter (fun e =>
    match otherEnd e n.id with
    | some o => (findNode st o).isSome && related.contains (.str o)
    | none => false)).length

/-- EntityResolutionEngine._match_by_relationships: collect the target_id
hints, and return the same-type node sharing at least 2 of those targets
with the highest overlap (ORDER BY shared_count DESC LIMIT 1; the first
node in store order wins a tie). -/
def match_by_relationships (st : GraphState) (d : EntityData)
    (entity_type : String) : Option GNode :=
  match d.relationships with
  | none => none
  | some rels =>
    if rels.isEmpty then none
    else
      let related := rels.filterMap (fun r => getProp r "target_id")
      if related.isEmpty then none
      else
        let cands := (st.nodes.filter (fun n =>
          n.labels.contains entity_type && 2 ≤ sharedCount st n related))
        match cands with
        | [] => none
        | c :: cs =>
          some ((cs.foldl (fun best n =>
            if sharedCount st best related < sharedCount st n related
            then n else best) c))

/-- EntityResolutionEngine.resolve_entity: the four strategies in strict
priority order, returning on the first hit.  (A matched node record always
carries its id property, so it is truthy in the Python sense.) -/
def resolve_entity (env : Env) (st : GraphState) (d : EntityData)
    (entity_type : String) : Option GNode :=
  match match_by_identifiers st d entity_type with
  | some e => some e
  | none =>
    match match_by_fuzzy_name env st d entity_type with
    | some e => some e
    | none =>
      match match_by_embedding env st d entity_type with
      | some e => some e
      | none =>
        match match_by_relationships st d entity_type with
        | some e => some e
        | none => none

/-- Chronologically later of two date values, used by newer_wins for
keys ending in _at and for timestamp (Python returns
`source_date if source_date > target_date else target_date`).  Dates are
ISO-8601 strings, whose lexicographic order agrees with the parsed
datetime order; heterogeneous value pairs are not modelled (Python would
raise) and keep the target value. -/
def dateLater (sv tv : PVal) : PVal :=
  match sv, tv with
  | .str a, .str b => if b < a then .str a else .str b
  | _, _ => tv

/-- Python max for the confidence key; mismatched constructors are not
modelled (Python would raise) and keep the merged value. -/
def pvalMax (v m : PVal) : PVal :=
  match v, m with
  | .num a, .num b => .num (max a b)
  | .str a, .str b => .str (max a b)
  | .bool a, .bool b => .bool (a || b)
  | _, _ => m

/-- Numeric reading of `(target.get("merged_count", 0) or 0)`: a number is
its own value (`n or 0` is numerically n), a bool is its Python int value,
a missing key gives 0.  A non-numeric truthy string would make the
subsequent + 1 raise in Python and is modelled as 0. -/
def mergedCountBase (target_props : Props) : Rat :=
  match getProp target_props "merged_count" with
  | some (.num n) => n
  | some (.bool b) => if b then 1 else 0
  | some (.str _) => 0
  | none => 0

/-- EntityResolutionEngine._merge_properties. -/
def merge_properties (source_entity target_entity : GNode)
    (merge_strategy : String) : Props :=
  let merged := target_entity.props.filter
    (fun kv => !(kv.1 == "id") && !(kv.1 == "labels"))
  let merged := source_entity.props.foldl (fun m kv =>
    if kv.1 == "id" || kv.1 == "labels" then m
    else
      match getProp m kv.1 with
      | none => m ++ [kv]
      | some cur =>
        if merge_strategy == "newer_wins" then
          if kv.1.endsWith "_at" || kv.1 == "timestamp" then
            if kv.2.truthy && cur.truthy then setProp m kv.1 (dateLater kv.2 cur)
            else m
          else if kv.1 == "confidence" then setProp m kv.1 (pvalMax kv.2 cur)
          else if !cur.truthy && kv.2.truthy then setProp m kv.1 kv.2
          else m
        else if merge_strategy == "source_wins" then setProp m kv.1 kv.2
        else m) merged
  setProp merged "merged_count" (.num (mergedCountBase target_entity.props + 1))

/-- The upsert request _update_entity_embedding sends to the vector
store. -/
structure UpsertReq where
  collection : String
  id : String
  vector : List Rat
  text : String

/-- EntityResolutionEngine._update_entity_embedding, returning the vector
upsert it issues (none when there is no text to embed).  Only string
values reach the text concatenations on the modelled paths. -/
def update_entity_embedding (env : Env) (entity_id entity_type : String)
    (entity_properties : Props) : Option UpsertReq :=
  let base :=
    match getProp entity_properties "name" with
    | some (.str s) =>
      if s == "" then
        (match getProp entity_properties "text" with
          | some (.str t) => t | _ => "")
      else s
    | _ =>
      (match getProp entity_properties "text" with
        | some (.str t) => t | _ => "")
  let text_to_embed :=
    match getProp entity_properties "description" with
    | some (.str ds) => base ++ " " ++ ds
    | _ => base
  if text_to_embed == "" then none
  else some ⟨entity_type, entity_id, env.getEmbedding text_to_embed,
    text_to_embed.take 100⟩

/-- Relationship properties copied on transfer: every property except the
defensively excluded id/source/target/type keys. -/
def relPropsClean (ps : Props) : Props :=
  ps.filter (fun kv => !(["id", "source", "target", "type"].contains kv.1))

/-- Cypher count(r) > 0 over
MATCH (source:type)-[r:ty]->(target) WHERE source.id = $B AND target.id = $X. -/
def relExistsOut (acc : GraphState) (entity_type B ty X : String) : Bool :=
  (findNodeByLabel acc entity_type B).isSome && (findNode acc X).isSome &&
    acc.edges.any (fun r => r.src == B && r.typ == ty && r.tgt == X)

/-- One iteration of the outgoing-relationship loop of
_transfer_relationships: skip when an equivalent relationship already
exists on the target, else MATCH both endpoints and CREATE the edge. -/
def transferOut (entity_type target_id : String) (acc : GraphState)
    (e : GEdge) : GraphState :=
  if relExistsOut acc entity_type target_id e.typ e.tgt then acc
  else
    match findNodeByLabel acc entity_type target_id, findNode acc e.tgt with
    | some _, some _ =>
      { acc with edges := acc.edges ++ [⟨target_id, e.typ, e.tgt, relPropsClean e.props⟩] }
    | _, _ => acc

/-- Cypher count(r) > 0 over
MATCH (source)-[r:ty]->(target:type) WHERE source.id = $S AND target.id = $B. -/
def relExistsIn (acc : GraphState) (entity_type S ty B : String) : Bool :=
  (findNode acc S).isSome && (findNodeByLabel acc entity_type B).isSome &&
    acc.edges.any (fun r => r.src == S && r.typ == ty && r.tgt == B)

/-- One iteration of the incoming-relationship loop of
_transfer_relationships. -/
def transferIn (entity_type target_id : String) (acc : GraphState)
    (e : GEdge) : GraphState :=
  if relExistsIn acc entity_type e.src e.typ target_id then acc
  else
    match findNode acc e.src, findNodeByLabel acc entity_type target_id with
    | some _, some _ =>
      { acc with edges := acc.edges ++ [⟨e.src, e.typ, target_id, relPropsClean e.props⟩] }
    | _, _ => acc

/-- EntityResolutionEngine._transfer_relationships: fetch the outgoing and
incoming relationships of the source up front, then for each one create
its counterpart on the target unless an equivalent relationship (same
type, same other endpoint) is already present at that moment. -/
def transfer_relationships (st : GraphState)
    (source_id target_id entity_type : String) : GraphState :=
  -- MATCH (source:type)-[r]->(target) WHERE source.id = $source_id
  let outgoing :=
    if (findNodeByLabel st entity_type source_id).isSome then
      st.edges.filter (fun e => e.src == source_id && (findNode st e.tgt).isSome)
    else []
  -- MATCH (source)-[r]->(target:type) WHERE target.id = $source_id
  let incoming :=
    if (findNodeByLabel st entity_type source_id).isSome then
      st.edges.filter (fun e => e.tgt == source_id && (findNode st e.src).isSome)
    else []
  let st1 := outgoing.foldl (transferOut entity_type target_id) st
  incoming.foldl (transferIn entity_type target_id) st1

/-- Cypher MATCH (e:label) WHERE e.id = $i SET e += $upd (or the explicit
SET assignments of the mark-merged query): update the properties of every
node matching the label and id. -/
def updateNodeProps (st : GraphState) (label i : String) (upd : Props) :
    GraphState :=
  { st with nodes := st.nodes.map (fun n =>
      if n.id == i && n.labels.contains label then
        { n with props := setProps n.props upd }
      else n) }

/-- The outcome of merge_entities: the new graph state, the merged target
node that is returned, and the vector upsert issued for it. -/
structure MergeOutcome where
  state : GraphState
  node : GNode
  upsert : Option UpsertReq

/-- EntityResolutionEngine.merge_entities: look up both entities (raising
when either is missing), merge properties onto the target, transfer
relationships, mark the source merged/merged_into/merged_at, regenerate
the target embedding, and return the updated target. -/
def merge_entities (env : Env) (st : GraphState)
    (source_id target_id entity_type merge_strategy : String)
    (now : String) : Except String MergeOutcome :=
  match findNodeByLabel st entity_type source_id,
        findNodeByLabel st entity_type target_id with
  | some source_entity, some target_entity =>
    let merged_properties :=
      merge_properties source_entity target_entity merge_strategy
    let st1 := updateNodeProps st entity_type target_id merged_properties
    let st2 := transfer_relationships st1 source_id target_id entity_type
    let st3 := updateNodeProps st2 entity_type source_id
      [("merged", .bool true), ("merged_into", .str target_id),
       ("merged_at", .str now)]
    let upsert := update_entity_embedding env target_id entity_type
      merged_properties
    match findNodeByLabel st3 entity_type target_id with
    | some n => .ok ⟨st3, n, upsert⟩
    | none => .error "merged target not found"
  | _, _ =>
    .error ("One or both entities not found: " ++ source_id ++ ", " ++ target_id)

/-- Keep the first occurrence of each element (Cypher UNION row
deduplication). -/
def dedupList {α : Type} [BEq α] (xs : List α) : List α :=
  xs.foldl (fun acc x => if acc.contains x then acc else acc ++ [x]) []

/-- A row of the expansion query, as consumed through record.get: the
reached node m and the connecting relationship r. -/
abbrev TravRec := Option GNode × Option GEdge

/-- GraphTraversal._build_relationship_filter: a `:T1|T2` fragment matches
a relationship whose type is any of the given ones; no filter matches
everything. -/
def relFilterOk (relationship_types : Option (List String)) (e : GEdge) : Bool :=
  match relationship_types with
  | none => true
  | some ts => ts.contains e.typ

/-- GraphTraversal._build_node_filter: a `:T1:T2` fragment requires all the
given labels; no filter matches everything. -/
def nodeFilterOk (node_types : Option (List String)) (n : GNode) : Bool :=
  match node_types with
  | none => true
  | some ts => ts.all (fun t => n.labels.contains t)

/-- GraphTraversal._expand_from_node: the distance-1 outbound rows UNION
the inbound rows, both restricted to the optional relationship/node type
filters.  The pattern requires the anchor node to exist; in Cypher the
trailing LIMIT binds to the second (inbound) subquery, and UNION removes
duplicate rows. -/
def expandFromNode (st : GraphState) (node_id : String)
    (relationship_types node_types : Option (List String)) (limit : Nat) :
    List TravRec :=
  if (findNode st node_id).isNone then []
  else
    -- MATCH (n)-[r f]->(m g) WHERE n.id = $node_id RETURN m, r
    let outRows : List TravRec := st.edges.filterMap (fun e =>
      if e.src == node_id && relFilterOk relationship_types e then
        match findNode st e.tgt with
        | some m => if nodeFilterOk node_types m then some (some m, some e) else none
        | none => none
      else none)
    -- UNION MATCH (m g)-[r f]->(n) WHERE n.id = $node_id RETURN m, r LIMIT $limit
    let inRows : List TravRec := st.edges.filterMap (fun e =>
      if e.tgt == node_id && relFilterOk relationship_types e then
        match findNode st e.src with
        | some m => if nodeFilterOk node_types m then some (some m, some e) else none
        | none => none
      else none)
    dedupList (outRows ++ inRows.take limit)

/-- The inner for-loop of traverse_from_seeds over the fetched records:
append the reached node and enqueue it at hop+1 when its id is not in the
visited set, append the connecting relationship, and break as soon as the
accumulated node count reaches max_nodes_per_hop. -/
def processRecords (max_nodes_per_hop hop : Nat) (visited : List String) :
    List TravRec → List GNode → List GEdge → List (String × Nat) →
    List GNode × List GEdge × List (String × Nat)
  | [], nodes, rels, acc => (nodes, rels, acc)
  | row :: rest, nodes, rels, acc =>
    let na :=
      match row.1 with
      | some m =>
        if !(visited.contains m.id) then (nodes ++ [m], acc ++ [(m.id, hop + 1)])
        else (nodes, acc)
      | none => (nodes, acc)
    let rels1 := match row.2 with | some r => rels ++ [r] | none => rels
    if max_nodes_per_hop ≤ na.1.length then (na.1, rels1, na.2)
    else processRecords max_nodes_per_hop hop visited rest na.1 rels1 na.2

/-- Number of node ids of the graph not yet in the visited set; the
termination measure of the traversal loop. -/
def unvisitedCount (st : GraphState) (visited : List String) : Nat :=
  ((st.nodes.map (fun n => n.id)).filter (fun i => !(visited.contains i))).length

theorem length_filter_lt_of_imp {α : Type} (l : List α) (p q : α → Bool)
    (himp : ∀ x, q x = true → p x = true) (a : α) (hmem : a ∈ l)
    (hp : p a = true) (hq : q a = false) :
    (l.filter q).length < (l.filter p).length := by
  have hqp : (l.filter p).filter q = l.filter q := by
    rw [List.filter_filter]
    apply List.filter_congr
    intro x _
    cases hqx : q x with
    | true => simp [hqx, himp x hqx]
    | false => simp [hqx]
  have hsub : List.Sublist ((l.filter p).filter q) (l.filter p) :=
    List.filter_sublist _
  have hle := hsub.length_le
  apply Nat.lt_of_le_of_ne
  · rw [← hqp]; exact hle
  · intro heqlen
    have heq : (l.filter p).filter q = l.filter p :=
      hsub.eq_of_length (by rw [hqp]; exact heqlen)
    have hmemp : a ∈ l.filter p := List.mem_filter.mpr ⟨hmem, hp⟩
    have hmemq : a ∈ (l.filter p).filter q := by rw [heq]; exact hmemp
    have hqa := (List.mem_filter.mp hmemq).2
    rw [hq] at hqa
    exact Bool.noConfusion hqa

theorem unvisitedCount_cons_lt (st : GraphState) (visited : List String)
    (i : String) (hmem : i ∈ st.nodes.map (fun n => n.id))
    (hnv : visited.contains i = false) :
    unvisitedCount st (i :: visited) < unvisitedCount st visited := by
  refine length_filter_lt_of_imp (st.nodes.map (fun n => n.id))
    (fun x => !(visited.contains x)) (fun x => !((i :: visited).contains x))
    ?_ i hmem ?_ ?_
  · intro x hx
    simp only [List.contains_cons, Bool.not_eq_true', Bool.or_eq_false_iff] at hx ⊢
    exact hx.2
  · simpa using hnv
  · simp [List.contains_cons]

theorem unvisitedCount_cons_of_not_mem (st : GraphState)
    (visited : List String) (i : String)
    (hmem : ¬ i ∈ st.nodes.map (fun n => n.id)) :
    unvisitedCount st (i :: visited) = unvisitedCount st visited := by
  unfold unvisitedCount
  congr 1
  apply List.filter_congr
  intro x hx
  have hne : ¬ (x == i) = true := by
    intro h
    exact hmem (by simpa [eq_of_beq h] using hx)
  simp only [List.contains_cons]
  cases hxi : (x == i) with
  | true => exact absurd hxi hne
  | false => simp

/-- GraphTraversal.traverse_from_seeds main loop: pop the queue front, skip
it when its hop exceeds max_hops or it was already visited, otherwise mark
it visited, expand one hop, process the records, and stop as soon as the
node list has reached max_nodes_per_hop.  Termination is by the
lexicographic measure (unvisited node ids, queue length): a skipped entry
shortens the queue, a processed entry that is a graph node shrinks the
unvisited set, and a processed entry that is no graph node expands to
nothing and shortens the queue. -/
def traverseAux (st : GraphState) (max_hops max_nodes_per_hop : Nat)
    (relationship_types node_types : Option (List String)) :
    List (String × Nat) → List String → List GNode → List GEdge →
    List GNode × List GEdge
  | [], _, nodes, rels => (nodes, rels)
  | (current_id, hop) :: rest, visited, nodes, rels =>
    if max_hops < hop ∨ visited.contains current_id then
      traverseAux st max_hops max_nodes_per_hop relationship_types node_types
        rest visited nodes rels
    else
      let pr := processRecords max_nodes_per_hop hop (current_id :: visited)
        (expandFromNode st current_id relationship_types node_types
          max_nodes_per_hop) nodes rels []
      if max_nodes_per_hop ≤ pr.1.length then (pr.1, pr.2.1)
      else
        traverseAux st max_hops max_nodes_per_hop relationship_types node_types
          (rest ++ pr.2.2) (current_id :: visited) pr.1 pr.2.1
termination_by q visited _ _ => (unvisitedCount st visited, q.length)
decreasing_by
  · apply Prod.Lex.right
    simp
  · rename_i hguard hbreak
    by_cases hmem : current_id ∈ st.nodes.map (fun n => n.id)
    · apply Prod.Lex.left
      apply unvisitedCount_cons_lt st visited current_id hmem
      cases hb : visited.contains current_id with
      | false => rfl
      | true => exact absurd (Or.inr hb) hguard
    · have hfind : findNode st current_id = none := by
        unfold findNode
        rw [List.find?_eq_none]
        intro n hn hbeq
        exact hmem (List.mem_map.mpr ⟨n, hn, eq_of_beq hbeq⟩)
      have hexp : expandFromNode st current_id relationship_types node_types
          max_nodes_per_hop = [] := by
        simp [expandFromNode, hfind]
      have hq : pr.2.2 = [] := by
        show (processRecords max_nodes_per_hop hop (current_id :: visited)
          (expandFromNode st current_id relationship_types node_types
            max_nodes_per_hop) nodes rels []).2.2 = []
        rw [hexp]
        simp [processRecords]
      rw [unvisitedCount_cons_of_not_mem st visited current_id hmem]
      apply Prod.Lex.right
      rw [hq]
      simp

/-- GraphTraversal.traverse_from_seeds: breadth-first expansion from the
seeds at hop 0 with empty visited set and outputs. -/
def traverse_from_seeds (st : GraphState) (seed_node_ids : List String)
    (max_hops : Nat := 2) (max_nodes_per_hop : Nat := 25)
    (relationship_types : Option (List String) := none)
    (node_types : Option (List String) := none) : List GNode × List GEdge :=
  traverseAux st max_hops max_nodes_per_hop relationship_types node_types
    (seed_node_ids.map (fun i => (i, 0))) [] [] []

/-- Fuel-indexed mirror of the traversal loop: none means the step budget
was exhausted with work remaining.  Used to state that the loop terminates
on every input. -/
def traverseSteps (st : GraphState) (max_hops max_nodes_per_hop : Nat)
    (relationship_types node_types : Option (List String)) :
    Nat → List (String × Nat) → List String → List GNode → List GEdge →
    Option (List GNode × List GEdge)
  | _, [], _, nodes, rels => some (nodes, rels)
  | 0, _ :: _, _, _, _ => none
  | fuel + 1, (current_id, hop) :: rest, visited, nodes, rels =>
    if max_hops < hop ∨ visited.contains current_id then
      traverseSteps st max_hops max_nodes_per_hop relationship_types node_types
        fuel rest visited nodes rels
    else
      let pr := processRecords max_nodes_per_hop hop (current_id :: visited)
        (expandFromNode st current_id relationship_types node_types
          max_nodes_per_hop) nodes rels []
      if max_nodes_per_hop ≤ pr.1.length then some (pr.1, pr.2.1)
      else
        traverseSteps st max_hops max_nodes_per_hop relationship_types node_types
          fuel (rest ++ pr.2.2) (current_id :: visited) pr.1 pr.2.1

/-- Status filter of find_related_tasks: task.status IN [...] (a missing
or non-string status never passes the IN test). -/
def statusOk (status_filter : Option (List String)) (task : GNode) : Bool :=
  match status_filter with
  | none => true
  | some ss =>
    match task.prop "status" with
    | some (.str s) => ss.contains s
    | _ => false

/-- GraphTraversal.find_related_tasks: tasks connected to the entity by an
undirected RELATED_TO edge, UNION tasks extracted from messages that
mention the entity, both under the optional status filter. -/
def find_related_tasks (st : GraphState) (entity_id : String)
    (status_filter : Option (List String)) : List GNode :=
  if (findNode st entity_id).isNone then []
  else
    -- MATCH (entity)-[:RELATED_TO]-(task:Task) WHERE entity.id = $entity_id
    let direct := st.nodes.filter (fun task =>
      task.labels.contains "Task" && statusOk status_filter task &&
        st.edges.any (fun e =>
          e.typ == "RELATED_TO" &&
            ((e.src == task.id && e.tgt == entity_id) ||
             (e.src == entity_id && e.tgt == task.id))))
    -- UNION MATCH (entity)<-[:MENTIONED_IN]-(msg:Message)
    --             <-[:EXTRACTED_FROM]-(task:Task)
    let extracted := st.nodes.filter (fun task =>
      task.labels.contains "Task" && statusOk status_filter task &&
        st.edges.any (fun em =>
          em.typ == "MENTIONED_IN" && em.tgt == entity_id &&
            (match findNode st em.src with
             | some msg => msg.labels.contains "Message" &&
                 st.edges.any (fun ee =>
                   ee.typ == "EXTRACTED_FROM" && ee.src == task.id &&
                     ee.tgt == em.src)
             | none => false)))
    dedupList (direct ++ extracted)

/-- graph_schema.NODE_TYPES: each node label with its allowed property
names, in source order. -/
def NODE_TYPES : List (String × List String) :=
  [("User", ["id", "name", "email", "created_at", "profile", "first_name",
    "last_name", "resume_summary"]),
   ("Person", ["id", "name", "email", "phone", "title", "organization_id",
    "first_contact_date", "last_contact_date", "source", "embedding_id",
    "created_at"]),
   ("Organization", ["id", "name", "type", "website", "description",
    "location", "embedding_id", "created_at"]),
   ("Skill", ["id", "name", "category", "created_at"]),
   ("Certification", ["id", "name", "issuer", "issue_date", "expiry_date",
    "created_at"]),
   ("Language", ["id", "name", "proficiency", "created_at"]),
   ("Message", ["id", "content", "sender_id", "channel_id", "thread_id",
    "timestamp", "read_status", "has_attachments", "sentiment", "intent",
    "is_actionable", "reply_to_id", "embedding_id", "created_at"]),
   ("Event", ["id", "title", "description", "start_time", "end_time",
    "location", "embedding_id", "created_at"]),
   ("Location", ["id", "name", "address", "coordinates", "type",
    "embedding_id"]),
   ("Task", ["id", "title", "status", "created_date", "source_type",
    "description", "priority", "due_date", "completion_date", "horizon",
    "recurrence", "estimated_time", "tags", "confidence_score",
    "assignee_id", "creator_id", "is_actionable", "reminder_date",
    "embedding_id", "created_at"]),
   ("Channel", ["id", "name", "type", "provider", "is_connected",
    "connection_status", "last_synced", "credentials_id", "settings",
    "embedding_id", "created_at"]),
   ("Thread", ["id", "title", "status", "created_date", "last_updated",
    "channel_id", "external_id", "participants_count", "message_count",
    "embedding_id", "created_at"])]

/-- A relationship type entry of graph_schema.RELATIONSHIP_TYPES. -/
structure RelTypeInfo where
  valid_sources : List String
  valid_targets : List String
  properties : List String
deriving DecidableEq

/-- graph_schema.RELATIONSHIP_TYPES. -/
def RELATIONSHIP_TYPES : List (String × RelTypeInfo) :=
  [("USER_KNOWS", ⟨["User"], ["Person"],
    ["relationship_strength", "first_contact_date", "last_contact_date",
     "communication_frequency", "channels", "context_tags"]⟩),
   ("USER_CONNECTED_TO", ⟨["User"], ["Organization"],
    ["connection_type", "start_date", "active", "context_tags"]⟩),
   ("USER_COMMUNICATES_VIA", ⟨["User"], ["Channel"],
    ["frequency", "last_used", "primary", "usage_pattern"]⟩),
   ("USER_PARTICIPATES_IN", ⟨["User"], ["Event"],
    ["role", "status", "importance", "recurrence"]⟩),
   ("USER_VISITS", ⟨["User"], ["Location"],
    ["visit_frequency", "last_visit", "context_tags", "typical_duration"]⟩),
   ("USER_MANAGES", ⟨["User"], ["Task"],
    ["assignment_date", "reminder_set", "priority_override"]⟩),
   ("CONNECTED_TO", ⟨["Person"], ["Person"],
    ["relationship_context", "inferred_closeness", "communication_frequency"]⟩),
   ("AFFILIATED_WITH", ⟨["Person"], ["Organization"],
    ["affiliation_type", "inferred_role", "context_tags"]⟩),
   ("PARTICIPATES_IN", ⟨["Person"], ["Event"],
    ["role", "status", "invited_by"]⟩),
   ("LOCATED_AT", ⟨["Person", "Organization", "Event"], ["Location"],
    ["relationship_type", "frequency", "context_tags"]⟩),
   ("AUTHORED", ⟨["Person", "User"], ["Message"],
    ["timestamp", "channel_id", "message_type", "context_tags"]⟩),
   ("RECEIVED", ⟨["Person", "User"], ["Message"],
    ["timestamp", "read_status", "delivery_status"]⟩),
   ("MENTIONED_IN", ⟨["Person", "Organization", "Location", "Event"], ["Message"],
    ["mention_context", "sentiment", "significance"]⟩),
   ("RELATED_TO", ⟨["Task"], ["Event", "Message", "Organization", "Location"],
    ["relationship_type", "relevance_score"]⟩),
   ("SAME_AS", ⟨["Person", "Organization"], ["Person", "Organization"],
    ["match_confidence", "evidence_sources", "channels"]⟩),
   ("EXTRACTED_FROM", ⟨["Task"], ["Message", "Event"],
    ["extraction_method", "confidence_score", "extracted_text"]⟩),
   ("ASSIGNED_TO", ⟨["Task"], ["Person"],
    ["assignment_date", "status", "assigned_by"]⟩),
   ("DEPENDS_ON", ⟨["Task"], ["Task"],
    ["dependency_type", "blocking"]⟩),
   ("MODIFIED_BY", ⟨["Task"], ["User"],
    ["modification_date", "modification_type", "previous_state"]⟩),
   ("HAS_SUBTASK", ⟨["Task"], ["Task"],
    ["creation_date", "completion_dependency"]⟩),
   ("HAS_SKILL", ⟨["User"], ["Skill"],
    ["proficiency", "years_experience", "last_used"]⟩),
   ("HAS_CERTIFICATION", ⟨["User"], ["Certification"],
    ["issue_date", "expiry_date", "verification_url"]⟩),
   ("SPEAKS", ⟨["User"], ["Language"],
    ["proficiency", "is_native"]⟩),
   ("WORKED_AT", ⟨["User"], ["Organization"],
    ["title", "start_date", "end_date", "location", "skills_used"]⟩),
   ("LEARNT_AT", ⟨["User"], ["Organization"],
    ["degree", "start_date", "end_date", "location", "description"]⟩)]

/-- Allowed property names for a node label, none for an unknown label. -/
def nodeTypeProps (label : String) : Option (List String) :=
  (NODE_TYPES.find? (fun e => e.1 == label)).map (fun e => e.2)

/-- Schema entry for a relationship type, none for an unknown type. -/
def relTypeInfo (rel_type : String) : Option RelTypeInfo :=
  (RELATIONSHIP_TYPES.find? (fun e => e.1 == rel_type)).map (fun e => e.2)

/-- The node record the store materialises from a property map: its label
and its id property (a node created without a string id property gets the
empty id in this model). -/
def mkNodeFromProps (label : String) (properties : Props) : GNode :=
  { id := match getProp properties "id" with | some (.str s) => s | _ => ""
    labels := [label]
    props := properties.filter (fun kv => !(kv.1 == "id")) }

/-- Neo4jWrapper.create_node: validate the label and every property
against NODE_TYPES before issuing CREATE (n:label $properties); a
validation failure raises and performs no store mutation. -/
def create_node (label : String) (properties : Props) (st : GraphState) :
    Except String (GraphState × GNode) :=
  match nodeTypeProps label with
  | none => .error ("Unknown node type: " ++ label)
  | some allowed =>
    match properties.find? (fun kv => !(allowed.contains kv.1)) with
    | some kv =>
      .error ("Invalid property " ++ kv.1 ++ " for node type " ++ label)
    | none =>
      let n := mkNodeFromProps label properties
      .ok ({ st with nodes := st.nodes ++ [n] }, n)

/-- Neo4jWrapper.merge_node: same validation as create_node, then
MERGE (n:label with id) SET n += $properties.  The id key is required
(the source reads properties of id for the query parameter). -/
def merge_node (label : String) (properties : Props) (st : GraphState) :
    Except String (GraphState × GNode) :=
  match nodeTypeProps label with
  | none => .error ("Unknown node type: " ++ label)
  | some allowed =>
    match properties.find? (fun kv => !(allowed.contains kv.1)) with
    | some kv =>
      .error ("Invalid property " ++ kv.1 ++ " for node type " ++ label)
    | none =>
      match getProp properties "id" with
      | some (.str i) =>
        match findNodeByLabel st label i with
        | some _ =>
          let st1 := updateNodeProps st label i
            (properties.filter (fun kv => !(kv.1 == "id")))
          match findNodeByLabel st1 label i with
          | some n => .ok (st1, n)
          | none => .error "merge_node: node vanished"
        | none =>
          let n := mkNodeFromProps label properties
          .ok ({ st with nodes := st.nodes ++ [n] }, n)
      | _ => .error "KeyError: id"

/-- Neo4jWrapper.create_relationship: validate the relationship type, the
source/target label pair and the relationship properties before issuing
MATCH both endpoints and CREATE the edge; a validation failure raises and
performs no store mutation, and a MATCH that finds no endpoints creates
nothing and returns no relationship. -/
def create_relationship (from_label to_label rel_type : String)
    (from_props to_props : Props) (rel_props : Props) (st : GraphState) :
    Except String (GraphState × Option GEdge) :=
  match relTypeInfo rel_type with
  | none => .error ("Unknown relationship type: " ++ rel_type)
  | some info =>
    if !(info.valid_sources.contains from_label) ||
        !(info.valid_targets.contains to_label) then
      .error ("Invalid source/target for relationship " ++ rel_type ++ ": "
        ++ from_label ++ " -> " ++ to_label)
    else
      match rel_props.find? (fun kv => !(info.properties.contains kv.1)) with
      | some kv =>
        .error ("Invalid property " ++ kv.1 ++ " for relationship type "
          ++ rel_type)
      | none =>
        match getProp from_props "id", getProp to_props "id" with
        | some (.str fi), some (.str ti) =>
          match findNodeByLabel st from_label fi,
                findNodeByLabel st to_label ti with
          | some _, some _ =>
            let e : GEdge := ⟨fi, rel_type, ti, rel_props⟩
            .ok ({ st with edges := st.edges ++ [e] }, some e)
          | _, _ => .ok (st, none)
        | _, _ => .error "KeyError: id"

/-- Neo4jWrapper.merge_relationship: same validation as
create_relationship, then MERGE (a)-[r:rel_type]->(b) SET r += $rel_props
(update the properties of the matched edges, or create the edge when none
exists). -/
def merge_relationship (from_label to_label rel_type : String)
    (from_props to_props : Props) (rel_props : Props) (st : GraphState) :
    Except String (GraphState × Option GEdge) :=
  match relTypeInfo rel_type with
  | none => .error ("Unknown relationship type: " ++ rel_type)
  | some info =>
    if !(info.valid_sources.contains from_label) ||
        !(info.valid_targets.contains to_label) then
      .error ("Invalid source/target for relationship " ++ rel_type ++ ": "
        ++ from_label ++ " -> " ++ to_label)
    else
      match rel_props.find? (fun kv => !(info.properties.contains kv.1)) with
      | some kv =>
        .error ("Invalid property " ++ kv.1 ++ " for relationship type "
          ++ rel_type)
      | none =>
        match getProp from_props "id", getProp to_props "id" with
        | some (.str fi), some (.str ti) =>
          match findNodeByLabel st from_label fi,
                findNodeByLabel st to_label ti with
          | some _, some _ =>
            if st.edges.any (fun e =>
                e.src == fi && e.typ == rel_type && e.tgt == ti) then
              let st1 := { st with edges := st.edges.map (fun e =>
                if e.src == fi && e.typ == rel_type && e.tgt == ti then
                  { e with props := setProps e.props rel_props }
                else e) }
              .ok (st1, st1.edges.find? (fun e =>
                e.src == fi && e.typ == rel_type && e.tgt == ti))
            else
              let e : GEdge := ⟨fi, rel_type, ti, rel_props⟩
              .ok ({ st with edges := st.edges ++ [e] }, some e)
          | _, _ => .ok (st, none)
        | _, _ => .error "KeyError: id"

/-- Application of an update map to a node, as the generated
SET n.k = $v clauses do; a string value under the id key rewrites the id
property itself. -/
def applyUpdate (n : GNode) (update_props : Props) : GNode :=
  update_props.foldl (fun m kv =>
    if kv.1 == "id" then
      match kv.2 with
      | .str s => { m with id := s }
      | _ => m
    else { m with props := setProp m.props kv.1 kv.2 }) n

/-- Neo4jWrapper.update_node: performs no schema validation at all — it
directly issues MATCH (n:label) WHERE the match properties hold SET the
update properties, returning the updated nodes. -/
def update_node (label : String) (match_props update_props : Props)
    (st : GraphState) : GraphState × List GNode :=
  let isMatch := fun (n : GNode) =>
    n.labels.contains label &&
      match_props.all (fun kv => n.prop kv.1 == some kv.2)
  let st1 := { st with nodes := st.nodes.map (fun n =>
    if isMatch n then applyUpdate n update_props else n) }
  (st1, st.nodes.filterMap (fun n =>
    if isMatch n then some (applyUpdate n update_props) else none))

/-- Neo4jWrapper.get_node: the first node matching the label and the match
properties. -/
def get_node (st : GraphState) (label : String) (match_props : Props) :
    Option GNode :=
  st.nodes.find? (fun n =>
    n.labels.contains label &&
      match_props.all (fun kv => n.prop kv.1 == some kv.2))

/-- rag_engine.LRUCache: an in-process bounded map with per-key expiry,
kept as an ordered association list (Python OrderedDict order).  The
wall-clock reads (time.time()) are passed in as the integer `now`. -/
structure LRUCache (α : Type) where
  entries : List (String × α × Int)
  max_size : Nat := 1000
  ttl : Int := 1800
deriving DecidableEq

/-- LRUCache.get: pop the entry; when not yet expired (expire > now)
re-append it (refreshing its recency) and return the value; when expired
drop it and return None. -/
def LRUCache.get {α : Type} (c : LRUCache α) (now : Int) (key : String) :
    Option α × LRUCache α :=
  match c.entries.find? (fun kv => kv.1 == key) with
  | none => (none, c)
  | some kv =>
    let rest := c.entries.filter (fun e => !(e.1 == key))
    if now < kv.2.2 then
      (some kv.2.1, { c with entries := rest ++ [(key, kv.2.1, kv.2.2)] })
    else (none, { c with entries := rest })

/-- LRUCache.set: pop an existing entry for the key, else when the cache
is full evict the entry at the front of the order (OrderedDict
popitem(last=False)), then append the new entry with expiry now + ttl. -/
def LRUCache.set {α : Type} (c : LRUCache α) (now : Int) (key : String)
    (v : α) : LRUCache α :=
  let expire := now + c.ttl
  let entries :=
    if c.entries.any (fun kv => kv.1 == key) then
      c.entries.filter (fun kv => !(kv.1 == key))
    else if c.max_size ≤ c.entries.length then c.entries.tail
    else c.entries
  { c with entries := entries ++ [(key, v, expire)] }

/-- LRUCache.delete. -/
def LRUCache.delete {α : Type} (c : LRUCache α) (key : String) : LRUCache α :=
  { c with entries := c.entries.filter (fun kv => !(kv.1 == key)) }

/-- LRUCache.clear. -/
def LRUCache.clear {α : Type} (c : LRUCache α) : LRUCache α :=
  { c with entries := [] }

/-- The combined result assembled by GraphRAGEngine.hybrid_search:
vector results, the traversal context, and the node-id-to-tasks map. -/
structure HybridResult where
  results : List VecHit
  contextNodes : List GNode
  contextRels : List GEdge
  task_context : List (String × List GNode)
deriving DecidableEq

/-- A value held in the distributed cache (Redis stores arbitrary pickled
values; the two shapes used on the modelled paths are node records and
hybrid-search results). -/
inductive RVal where
  | node (n : GNode)
  | hybrid (h : HybridResult)
deriving DecidableEq

/-- An entry of the distributed cache: key, value and optional absolute
expiry (setex semantics). -/
structure RedisEntry where
  key : String
  val : RVal
  expire : Option Int
deriving DecidableEq

/-- The distributed cache tier (data_services.redis_cache.RedisCache). -/
abbrev RedisState := List RedisEntry

/-- RedisCache.get: a present, unexpired key yields its value; an expired
key behaves as absent (Redis evicts it). -/
def redisGet (rs : RedisState) (now : Int) (key : String) : Option RVal :=
  match rs.find? (fun e => e.key == key) with
  | none => none
  | some e =>
    match e.expire with
    | none => some e.val
    | some t => if now < t then some e.val else none

/-- RedisCache.set with optional ttl. -/
def redisSet (rs : RedisState) (now : Int) (key : String) (v : RVal)
    (ttl : Option Int) : RedisState :=
  rs.filter (fun e => !(e.key == key)) ++
    [⟨key, v, ttl.map (fun t => now + t)⟩]

/-- RedisCache.delete. -/
def redisDelete (rs : RedisState) (key : String) : RedisState :=
  rs.filter (fun e => !(e.key == key))

/-- RedisCache.flush: flushdb removes every key. -/
def redisFlush (_ : RedisState) : RedisState := []

/-- The cache state the rag_engine module is written towards: node_cache
as LRUCache(10000, 1800), embedding_cache as LRUCache(5000, 3600), and
redis_cache as the distributed RedisCache tier.  This is an INTENT
model: in the repository source the module-level assignment redis_cache
= RedisCache() at line 57 is commented out ("Temporarily comment out
Redis Cache initialization") and nothing else binds the name, so at
runtime redis_cache is undefined and every use of it raises NameError.
The executed behaviour is embedded separately by RagModule (whose
redis_cache? field is none for the repository module) and the Run
definitions below; the CacheCtx-based definitions give the semantics
the code would have were the distributed tier initialised, which is what
the repository test suite (test_cache_and_admin imports
rag_engine.redis_cache) assumes. -/
structure CacheCtx where
  node_cache : LRUCache GNode
  embedding_cache : LRUCache (List Rat)
  redis_cache : RedisState
deriving DecidableEq

/-- COALESCE(n.access_count, 0): a missing or non-numeric value reads as
0. -/
def accessCountBase (n : GNode) : Rat :=
  match getProp n.props "access_count" with
  | some (.num q) => q
  | _ => 0

/-- Intent of rag_engine.update_node_access_timestamp: MATCH (n) WHERE
n.id = $node_id SET n.last_accessed_at = datetime(), n.access_count =
COALESCE(n.access_count, 0) + 1.  The source invokes this through
graph_db.execute_query, a method the repository Neo4jWrapper does not
define (its method is run_query), so the executed call raises
AttributeError - see update_node_access_timestampRun; this definition
is the intended effect of the query text, with datetime() passed in as
`nowStr`. -/
def update_node_access_timestamp (gst : GraphState) (node_id : String)
    (nowStr : String) : GraphState :=
  { gst with nodes := gst.nodes.map (fun n =>
      if n.id == node_id then
        { n with props := (setProp
            (setProp n.props "last_accessed_at" (.str nowStr))
            "access_count" (.num (accessCountBase n + 1))) }
      else n) }

/-- Intent of rag_engine.get_node_with_cache: node cache, then
distributed cache (repopulating the node cache), then the store
(repopulating both tiers with a 4-hour distributed ttl); every hit path
bumps the node access timestamp.  As executed the function raises on
every path (AttributeError through the timestamp bump on a hit,
NameError on the unbound redis_cache on a miss) - see
get_node_with_cacheRun.  The store read graph_db.get_node returns a
single node that the source indexes with [0] as if it were a list; the
call is modelled by its call-site contract (the first matching node).
A non-node value under a node key does not occur and reads as a miss. -/
def get_node_with_cache (gst : GraphState) (ctx : CacheCtx) (now : Int)
    (nowStr : String) (node_id node_type : String) :
    Option GNode × GraphState × CacheCtx :=
  let cache_key := node_type ++ ":" ++ node_id
  let r := ctx.node_cache.get now cache_key
  match r.1 with
  | some cached =>
    (some cached, update_node_access_timestamp gst node_id nowStr,
     { ctx with node_cache := r.2 })
  | none =>
    match redisGet ctx.redis_cache now cache_key with
    | some (.node cached) =>
      (some cached, update_node_access_timestamp gst node_id nowStr,
       { ctx with node_cache := r.2.set now cache_key cached })
    | _ =>
      match get_node gst node_type [("id", .str node_id)] with
      | some nd =>
        (some nd, update_node_access_timestamp gst node_id nowStr,
         { ctx with
            node_cache := r.2.set now cache_key nd,
            redis_cache := redisSet ctx.redis_cache now cache_key (.node nd)
              (some (4 * 3600)) })
      | none => (none, gst, { ctx with node_cache := r.2 })

/-- rag_engine.get_embedding_with_cache, keyed by str(hash(text)). -/
def get_embedding_with_cache (env : Env) (ctx : CacheCtx) (now : Int)
    (text : String) : List Rat × CacheCtx :=
  let text_hash := toString (env.pyHash text)
  let r := ctx.embedding_cache.get now text_hash
  match r.1 with
  | some cached => (cached, { ctx with embedding_cache := r.2 })
  | none =>
    let embedding := env.genEmbedding text
    (embedding,
     { ctx with embedding_cache := r.2.set now text_hash embedding })

/-- Intent of rag_engine.get_operation_cache; as executed it raises
NameError on the unbound redis_cache - see get_operation_cacheRun. -/
def get_operation_cache (ctx : CacheCtx) (now : Int) (key : String) :
    Option RVal :=
  redisGet ctx.redis_cache now key

/-- Intent of rag_engine.set_operation_cache (default ttl 600 seconds);
as executed it raises NameError - see set_operation_cacheRun. -/
def set_operation_cache (ctx : CacheCtx) (now : Int) (key : String)
    (value : RVal) (ttl : Int := 600) : CacheCtx :=
  { ctx with redis_cache := redisSet ctx.redis_cache now key value (some ttl) }

/-- Intent of rag_engine.invalidate_node_cache: delete the node key from
both the in-process node cache and the distributed cache.  As executed
only the in-process delete runs before the NameError - see
invalidate_node_cacheRun. -/
def invalidate_node_cache (ctx : CacheCtx) (node_id node_type : String) :
    CacheCtx :=
  let cache_key := node_type ++ ":" ++ node_id
  { ctx with
      node_cache := ctx.node_cache.delete cache_key,
      redis_cache := redisDelete ctx.redis_cache cache_key }

/-- Intent of rag_engine.invalidate_related_query_cache: flush the whole
distributed cache (the source comment: could be more granular; in
production, track which queries involve which nodes).  As executed it
raises NameError - see invalidate_related_query_cacheRun. -/
def invalidate_related_query_cache (ctx : CacheCtx) (_node_id : String) :
    CacheCtx :=
  { ctx with redis_cache := redisFlush ctx.redis_cache }

/-- Intent of rag_engine.update_node_with_cache: write the node, then
invalidate its cache key in both tiers, then flush the operation-result
cache when the write carries a truthy relationships property.  As
executed the opening write raises TypeError - the call
graph_db.update_node(node_id, properties) passes two arguments where
Neo4jWrapper.update_node takes (label, match_props, update_props) - see
update_node_with_cacheRun; here the write is taken at its call-site
contract: update the properties of the node with this id. -/
def update_node_with_cache (gst : GraphState) (ctx : CacheCtx)
    (node_id node_type : String) (properties : Props) :
    GraphState × CacheCtx :=
  let gst1 := { gst with nodes := gst.nodes.map (fun n =>
    if n.id == node_id then applyUpdate n properties else n) }
  let ctx1 := invalidate_node_cache ctx node_id node_type
  let ctx2 :=
    if (match getProp properties "relationships" with
        | some v => v.truthy
        | none => false) then
      invalidate_related_query_cache ctx1 node_id
    else ctx1
  (gst1, ctx2)

/-- Intent of rag_engine.create_relationship_with_cache: create the
relationship, invalidate both endpoint node keys in both tiers, and
flush the operation-result cache (twice in the source).  As executed
the opening write raises TypeError - graph_db.create_relationship is
passed four arguments where Neo4jWrapper.create_relationship takes six -
see create_relationship_with_cacheRun; here the write is taken at its
call-site contract: create an edge between the two node ids when both
exist. -/
def create_relationship_with_cache (gst : GraphState) (ctx : CacheCtx)
    (source_id source_type target_id target_type rel_type : String)
    (properties : Props) : GraphState × CacheCtx :=
  let gst1 :=
    if (findNode gst source_id).isSome && (findNode gst target_id).isSome then
      { gst with edges := gst.edges ++ [⟨source_id, rel_type, target_id, properties⟩] }
    else gst
  let ctx1 := invalidate_node_cache ctx source_id source_type
  let ctx2 := invalidate_node_cache ctx1 target_id target_type
  let ctx3 := invalidate_related_query_cache ctx2 source_id
  let ctx4 := invalidate_related_query_cache ctx3 target_id
  (gst1, ctx4)

/-- The SET clauses of the archive query of rag_engine.archive_nodes
(status, archived_at, archive_reference; for Message nodes additionally
content = NULL — removing the property — and has_archived_content =
true).  The query text writes datetime.now(UTC) for the archive time,
which is not valid Cypher; it is modelled as the `nowStr` timestamp the
code intends. -/
def applyArchive (entity_type nowStr archive_reference : String)
    (n : GNode) : GNode :=
  let n1 := { n with props := (setProps n.props
    [("status", .str "archived"), ("archived_at", .str nowStr),
     ("archive_reference", .str archive_reference)]) }
  if entity_type == "Message" then
    { n1 with props := (setProp
        (n1.props.filter (fun kv => !(kv.1 == "content")))
        "has_archived_content" (.bool true)) }
  else n1

/-- Intent of one iteration of rag_engine.archive_nodes: read the node
through the cache, skip it when nothing is found, else store it cold,
run the archive query, and invalidate the node cache key.  As executed
the iteration raises inside the cache read, and the archive query would
anyway go through the missing graph_db.execute_query - see
archiveOneRun. -/
def archiveOne (env : Env) (entity_type : String) (now : Int)
    (nowStr : String) (s : GraphState × CacheCtx) (node_id : String) :
    GraphState × CacheCtx :=
  let r := get_node_with_cache s.1 s.2 now nowStr node_id entity_type
  match r.1 with
  | none => (r.2.1, r.2.2)
  | some node_data =>
    let archive_reference := env.coldStore node_data
    let gst2 := { r.2.1 with nodes := r.2.1.nodes.map (fun n =>
      if n.id == node_id then
        applyArchive entity_type nowStr archive_reference n
      else n) }
    (gst2, invalidate_node_cache r.2.2 node_id entity_type)

/-- Intent of rag_engine.archive_nodes over a batch of node ids; the
executed behaviour is archive_nodesRun. -/
def archive_nodes (env : Env) (gst : GraphState) (ctx : CacheCtx)
    (now : Int) (nowStr : String) (node_batch : List String)
    (entity_type : String) : GraphState × CacheCtx :=
  node_batch.foldl (archiveOne env entity_type now nowStr) (gst, ctx)

/-- GraphRAGEngine construction parameters used by the search paths. -/
structure EngineCfg where
  collection_name : String := "muntu_knowledge"
  similarity_threshold : Rat := 0.7
  max_results : Nat := 10

/-- GraphRAGEngine.semantic_search: embed the query through the embedding
cache, search the engine collection bounded to max_results, and keep the
hits at or above the similarity threshold.  The filters argument is
accepted and ignored, as in the source. -/
def semantic_search (cfg : EngineCfg) (env : Env) (ctx : CacheCtx)
    (now : Int) (query_text : String) (_filters : Option Props) :
    List VecHit × CacheCtx :=
  let r := get_embedding_with_cache env ctx now query_text
  let vector_results := env.searchVectors cfg.collection_name r.1 cfg.max_results
  (vector_results.filter (fun h => cfg.similarity_threshold ≤ h.score), r.2)

/-- Stand-in for the Python str() of the filters dict, used only as
operation-cache key material. -/
def pvalRepr : PVal → String
  | .str s => s
  | .bool b => toString b
  | .num q => toString q.num ++ "/" ++ toString q.den

/-- Key material for the filters argument (str(filters) in the source). -/
def filtersRepr : Option Props → String
  | none => "None"
  | some ps =>
    String.intercalate "," (ps.map (fun kv => kv.1 ++ "=" ++ pvalRepr kv.2))

/-- Update-or-append into the task_context map (Python dict assignment). -/
def setAssoc (m : List (String × List GNode)) (k : String)
    (v : List GNode) : List (String × List GNode) :=
  if m.any (fun kv => kv.1 == k) then
    m.map (fun kv => if kv.1 == k then (k, v) else kv)
  else m ++ [(k, v)]

/-- Intent of GraphRAGEngine.hybrid_search: check the operation cache
under hybrid_search:query:filters:max_hops and return a hit unchanged;
on a miss run semantic_search, short-circuit to an empty result when no
hit survives the threshold, else traverse from the hit ids (default
node budget 25, no filters) and attach pending/in_progress tasks per
reached node; either result is cached with ttl 600 before being
returned.  As executed the opening cache check raises NameError on the
unbound redis_cache - see hybrid_searchRun. -/
def hybrid_search (cfg : EngineCfg) (env : Env) (gst : GraphState)
    (ctx : CacheCtx) (now : Int) (query_text : String)
    (filters : Option Props) (max_hops : Nat) : RVal × CacheCtx :=
  let op_key := "hybrid_search:" ++ query_text ++ ":" ++ filtersRepr filters
    ++ ":" ++ toString max_hops
  match get_operation_cache ctx now op_key with
  | some cached_result => (cached_result, ctx)
  | none =>
    let sr := semantic_search cfg env ctx now query_text filters
    let vector_results := sr.1
    let ctx1 := sr.2
    let seed_node_ids := vector_results.map (fun h => h.id)
    if seed_node_ids.isEmpty then
      let result := RVal.hybrid ⟨[], [], [], []⟩
      (result, set_operation_cache ctx1 now op_key result 600)
    else
      let gc := traverse_from_seeds gst seed_node_ids max_hops
      let task_context := gc.1.foldl (fun acc node =>
        let tasks := find_related_tasks gst node.id
          (some ["pending", "in_progress"])
        if tasks.isEmpty then acc else setAssoc acc node.id tasks) []
      let result := RVal.hybrid ⟨vector_results, gc.1, gc.2, task_context⟩
      (result, set_operation_cache ctx1 now op_key result 600)

/-! The definitions above give the cache and search paths the semantics
the module is written towards.  The module as it executes differs: the
redis_cache assignment at rag_engine.py line 57 is commented out, so the
name is unbound at runtime; graph_db.update_node and
graph_db.create_relationship are called with the wrong positional arity
for Neo4jWrapper; and graph_db.execute_query is a method Neo4jWrapper
does not define.  The Run definitions below embed the executed
behaviour, raising exactly where CPython raises. -/

/-- The Python exceptions the rag_engine write and search paths raise:
NameError for the unbound module name redis_cache, TypeError for a
positional-arity mismatch, AttributeError for a method the wrapper
object does not define. -/
inductive PyErr where
  | nameError (name : String)
  | typeError (msg : String)
  | attributeError (msg : String)
deriving DecidableEq

/-- The rag_engine module state as it exists at runtime: node_cache and
embedding_cache are bound at import (lines 54-55); the redis_cache
assignment at line 57 is commented out, so the name can be unbound -
none means the name does not exist and any use of it raises NameError.
In the repository source nothing ever binds it. -/
structure RagModule where
  node_cache : LRUCache GNode
  embedding_cache : LRUCache (List Rat)
  redis_cache? : Option RedisState
deriving DecidableEq

/-- Reading the module name redis_cache: when unbound, CPython raises
NameError before any attribute of it is touched. -/
def readRedis (m : RagModule) : Except PyErr RedisState :=
  match m.redis_cache? with
  | some rs => Except.ok rs
  | none => Except.error (.nameError "redis_cache")

/-- graph_db.execute_query(query, params) as executed: the callers of
this module receive the repository Neo4jWrapper (routes construct one),
which defines run_query but no execute_query, so the attribute lookup
raises AttributeError and the query text never runs. -/
def execute_queryRun (_gst : GraphState) (_query : String) :
    Except PyErr GraphState :=
  Except.error (.attributeError "execute_query")

/-- rag_engine.update_node_access_timestamp as executed: builds the
last_accessed_at / access_count query and calls graph_db.execute_query,
which raises AttributeError. -/
def update_node_access_timestampRun (gst : GraphState)
    (_node_id : String) : Except PyErr GraphState :=
  execute_queryRun gst
    "MATCH (n) WHERE n.id = $node_id SET n.last_accessed_at = datetime(), n.access_count = COALESCE(n.access_count, 0) + 1"

/-- rag_engine.get_node_with_cache as executed, statement for statement:
the in-process lookup itself works, but a hit then calls
update_node_access_timestamp (AttributeError) before returning, and a
miss reads the unbound redis_cache (NameError); the store fallback,
were it reached, would populate both tiers and bump the timestamp. -/
def get_node_with_cacheRun (gst : GraphState) (m : RagModule) (now : Int)
    (node_id node_type : String) :
    Except PyErr (Option GNode × GraphState × RagModule) := do
  let cache_key := node_type ++ ":" ++ node_id
  let r := m.node_cache.get now cache_key
  match r.1 with
  | some cached => do
    let gst1 ← update_node_access_timestampRun gst node_id
    Except.ok (some cached, gst1, { m with node_cache := r.2 })
  | none => do
    let rs ← readRedis m
    match redisGet rs now cache_key with
    | some (.node cached) => do
      let nc2 := r.2.set now cache_key cached
      let gst1 ← update_node_access_timestampRun gst node_id
      Except.ok (some cached, gst1, { m with node_cache := nc2 })
    | _ =>
      match get_node gst node_type [("id", .str node_id)] with
      | some nd => do
        let nc2 := r.2.set now cache_key nd
        let rs2 := redisSet rs now cache_key (.node nd) (some (4 * 3600))
        let gst1 ← update_node_access_timestampRun gst node_id
        Except.ok (some nd, gst1,
          { m with node_cache := nc2, redis_cache? := some rs2 })
      | none => Except.ok (none, gst, { m with node_cache := r.2 })

/-- rag_engine.get_operation_cache as executed: its body is
redis_cache.get(key), so the unbound name raises NameError on every
call. -/
def get_operation_cacheRun (m : RagModule) (now : Int) (key : String) :
    Except PyErr (Option RVal) := do
  let rs ← readRedis m
  Except.ok (redisGet rs now key)

/-- rag_engine.set_operation_cache as executed (ttl 600 default): its
body is redis_cache.set(key, value, ttl), raising NameError. -/
def set_operation_cacheRun (m : RagModule) (now : Int) (key : String)
    (value : RVal) (ttl : Int := 600) : Except PyErr RagModule := do
  let rs ← readRedis m
  Except.ok { m with redis_cache? := some (redisSet rs now key value (some ttl)) }

/-- rag_engine.invalidate_node_cache as executed: the in-process delete
runs first and does take effect, then redis_cache.delete reads the
unbound name and raises NameError, so the distributed-tier delete never
happens and the exception propagates to the caller. -/
def invalidate_node_cacheRun (m : RagModule) (node_id node_type : String) :
    Except PyErr RagModule := do
  let cache_key := node_type ++ ":" ++ node_id
  let nc := m.node_cache.delete cache_key
  let rs ← readRedis { m with node_cache := nc }
  Except.ok { m with
    node_cache := nc
    redis_cache? := some (redisDelete rs cache_key) }

/-- rag_engine.invalidate_related_query_cache as executed:
redis_cache.flush() on the unbound name raises NameError. -/
def invalidate_related_query_cacheRun (m : RagModule) (_node_id : String) :
    Except PyErr RagModule := do
  let rs ← readRedis m
  Except.ok { m with redis_cache? := some (redisFlush rs) }

/-- The call graph_db.update_node(node_id, properties) that opens
rag_engine.update_node_with_cache: Neo4jWrapper.update_node takes three
positional parameters (label, match_props, update_props) and receives
two, so CPython raises TypeError at the call site, before the wrapper
body and before any invalidation statement runs. -/
def update_nodeArity2 (_gst : GraphState) (_node_id : String)
    (_properties : Props) : Except PyErr (GraphState × List GNode) :=
  Except.error (.typeError
    "update_node() missing 1 required positional argument: update_props")

/-- The call graph_db.create_relationship(source_id, target_id,
rel_type, properties) that opens
rag_engine.create_relationship_with_cache: Neo4jWrapper
.create_relationship has five required parameters (from_label, to_label,
rel_type, from_props, to_props) and receives four arguments, so the call
raises TypeError. -/
def create_relationshipArity4 (_gst : GraphState)
    (_source_id _target_id _rel_type : String) (_properties : Props) :
    Except PyErr GraphState :=
  Except.error (.typeError
    "create_relationship() missing 1 required positional argument: to_props")

/-- rag_engine.update_node_with_cache as executed: the first statement
raises TypeError (wrong arity to graph_db.update_node); the invalidation
statements after it are never reached. -/
def update_node_with_cacheRun (gst : GraphState) (m : RagModule)
    (node_id node_type : String) (properties : Props) :
    Except PyErr ((GraphState × List GNode) × RagModule) := do
  let result ← update_nodeArity2 gst node_id properties
  let m1 ← invalidate_node_cacheRun m node_id node_type
  let m2 ←
    if (match getProp properties "relationships" with
        | some v => v.truthy
        | none => false) then
      invalidate_related_query_cacheRun m1 node_id
    else Except.ok m1
  Except.ok (result, m2)

/-- rag_engine.create_relationship_with_cache as executed: the first
statement raises TypeError (four arguments to the six-parameter
graph_db.create_relationship); no invalidation runs. -/
def create_relationship_with_cacheRun (gst : GraphState) (m : RagModule)
    (source_id source_type target_id target_type rel_type : String)
    (properties : Props) : Except PyErr (GraphState × RagModule) := do
  let result ← create_relationshipArity4 gst source_id target_id rel_type
    properties
  let m1 ← invalidate_node_cacheRun m source_id source_type
  let m2 ← invalidate_node_cacheRun m1 target_id target_type
  let m3 ← invalidate_related_query_cacheRun m2 source_id
  let m4 ← invalidate_related_query_cacheRun m3 target_id
  Except.ok (result, m4)

/-- One iteration of rag_engine.archive_nodes as executed: the
cache-read raises on either of its first two paths when redis_cache is
unbound; were a node found, cold storage would run and
graph_db.execute_query would then raise AttributeError. -/
def archiveOneRun (env : Env) (entity_type : String) (now : Int)
    (s : GraphState × RagModule) (node_id : String) :
    Except PyErr (GraphState × RagModule) := do
  let r ← get_node_with_cacheRun s.1 s.2 now node_id entity_type
  match r.1 with
  | none => Except.ok (r.2.1, r.2.2)
  | some node_data => do
    let _archive_reference := env.coldStore node_data
    let gst2 ← execute_queryRun r.2.1
      "MATCH (n) WHERE n.id = $node_id SET n.status = archived, n.archived_at = datetime.now(UTC), n.archive_reference = $archive_reference"
    let m2 ← invalidate_node_cacheRun r.2.2 node_id entity_type
    Except.ok (gst2, m2)

/-- rag_engine.archive_nodes as executed: a Python for-loop with no
exception handler, so the first iteration that raises aborts the whole
call. -/
def archive_nodesRun (env : Env) (gst : GraphState) (m : RagModule)
    (now : Int) (node_batch : List String) (entity_type : String) :
    Except PyErr (GraphState × RagModule) :=
  node_batch.foldlM (archiveOneRun env entity_type now) (gst, m)

/-- GraphRAGEngine.hybrid_search as executed: after building op_key, the
second statement calls get_operation_cache, which reads the unbound
redis_cache and raises NameError before any search or traversal; the
remaining statements are translated for completeness but are
unreachable in the repository module. -/
def hybrid_searchRun (cfg : EngineCfg) (env : Env) (gst : GraphState)
    (m : RagModule) (now : Int) (query_text : String)
    (filters : Option Props) (max_hops : Nat) :
    Except PyErr (RVal × RagModule) := do
  let op_key := "hybrid_search:" ++ query_text ++ ":" ++ filtersRepr filters
    ++ ":" ++ toString max_hops
  let cached ← get_operation_cacheRun m now op_key
  match cached with
  | some cached_result => Except.ok (cached_result, m)
  | none => do
    let ctx0 : CacheCtx := ⟨m.node_cache, m.embedding_cache, []⟩
    let sr := semantic_search cfg env ctx0 now query_text filters
    let m1 : RagModule := { m with embedding_cache := sr.2.embedding_cache }
    let seed_node_ids := sr.1.map (fun h => h.id)
    if seed_node_ids.isEmpty then do
      let result := RVal.hybrid ⟨[], [], [], []⟩
      let m2 ← set_operation_cacheRun m1 now op_key result 600
      Except.ok (result, m2)
    else do
      let gc := traverse_from_seeds gst seed_node_ids max_hops
      let task_context := gc.1.foldl (fun acc node =>
        let tasks := find_related_tasks gst node.id
          (some ["pending", "in_progress"])
        if tasks.isEmpty then acc else setAssoc acc node.id tasks) []
      let result := RVal.hybrid ⟨sr.1, gc.1, gc.2, task_context⟩
      let m2 ← set_operation_cacheRun m1 now op_key result 600
      Except.ok (result, m2)

/-- Number of relationships with the given source id, type and target id
(the count the duplicate checks of _transfer_relationships take). -/
def cntEdges (st : GraphState) (s ty tg : String) : Nat :=
  (st.edges.filter (fun r => r.src == s && r.typ == ty && r.tgt == tg)).length

theorem cntEdges_pos_iff_any (st : GraphState) (s ty tg : String) :
    1 ≤ cntEdges st s ty tg ↔
      st.edges.any (fun r => r.src == s && r.typ == ty && r.tgt == tg)
        = true := by
  unfold cntEdges
  rw [List.any_eq_true]
  constructor
  · intro h
    have hne : st.edges.filter
        (fun r => r.src == s && r.typ == ty && r.tgt == tg) ≠ [] := by
      intro h0
      rw [h0] at h
      simp at h
    obtain ⟨r, hr⟩ := List.exists_mem_of_ne_nil _ hne
    exact ⟨r, (List.mem_filter.mp hr).1, (List.mem_filter.mp hr).2⟩
  · rintro ⟨r, hr, hp⟩
    exact List.length_pos.mpr
      (List.ne_nil_of_mem (List.mem_filter.mpr ⟨hr, hp⟩))

theorem transferOut_nodes (T B : String) (acc : GraphState) (e : GEdge) :
    (transferOut T B acc e).nodes = acc.nodes := by
  unfold transferOut
  split
  · rfl
  · split <;> rfl

theorem transferIn_nodes (T B : String) (acc : GraphState) (e : GEdge) :
    (transferIn T B acc e).nodes = acc.nodes := by
  unfold transferIn
  split
  · rfl
  · split <;> rfl

theorem foldl_transferOut_nodes (T B : String) (L : List GEdge) :
    ∀ acc : GraphState, (L.foldl (transferOut T B) acc).nodes = acc.nodes := by
  induction L with
  | nil => intro acc; rfl
  | cons e L ih =>
    intro acc
    rw [List.foldl_cons, ih, transferOut_nodes]

theorem foldl_transferIn_nodes (T B : String) (L : List GEdge) :
    ∀ acc : GraphState, (L.foldl (transferIn T B) acc).nodes = acc.nodes := by
  induction L with
  | nil => intro acc; rfl
  | cons e L ih =>
    intro acc
    rw [List.foldl_cons, ih, transferIn_nodes]

theorem transferOut_mem (T B : String) (acc : GraphState) (e : GEdge)
    (r : GEdge) (hr : r ∈ acc.edges) : r ∈ (transferOut T B acc e).edges := by
  unfold transferOut
  split
  · exact hr
  · split
    · exact List.mem_append_left _ hr
    · exact hr

theorem transferIn_mem (T B : String) (acc : GraphState) (e : GEdge)
    (r : GEdge) (hr : r ∈ acc.edges) : r ∈ (transferIn T B acc e).edges := by
  unfold transferIn
  split
  · exact hr
  · split
    · exact List.mem_append_left _ hr
    · exact hr

theorem foldl_transferOut_mem (T B : String) (L : List GEdge) :
    ∀ acc : GraphState, ∀ r ∈ acc.edges,
      r ∈ (L.foldl (transferOut T B) acc).edges := by
  induction L with
  | nil => intro acc r hr; exact hr
  | cons e L ih =>
    intro acc r hr
    rw [List.foldl_cons]
    exact ih _ r (transferOut_mem T B acc e r hr)

theorem foldl_transferIn_mem (T B : String) (L : List GEdge) :
    ∀ acc : GraphState, ∀ r ∈ acc.edges,
      r ∈ (L.foldl (transferIn T B) acc).edges := by
  induction L with
  | nil => intro acc r hr; exact hr
  | cons e L ih =>
    intro acc r hr
    rw [List.foldl_cons]
    exact ih _ r (transferIn_mem T B acc e r hr)

theorem transferOut_ensures (T B : String) (acc : GraphState) (e : GEdge)
    (hB : (findNodeByLabel acc T B).isSome = true)
    (htgt : (findNode acc e.tgt).isSome = true) :
    ∃ r ∈ (transferOut T B acc e).edges,
      r.src = B ∧ r.typ = e.typ ∧ r.tgt = e.tgt := by
  unfold transferOut
  by_cases hex : relExistsOut acc T B e.typ e.tgt = true
  · rw [if_pos hex]
    unfold relExistsOut at hex
    rw [Bool.and_eq_true, Bool.and_eq_true] at hex
    rcases List.any_eq_true.mp hex.2 with ⟨r, hr, hm⟩
    rw [Bool.and_eq_true, Bool.and_eq_true] at hm
    exact ⟨r, hr, eq_of_beq hm.1.1, eq_of_beq hm.1.2, eq_of_beq hm.2⟩
  · rw [if_neg hex]
    split
    · exact ⟨⟨B, e.typ, e.tgt, relPropsClean e.props⟩,
        List.mem_append_right _ (List.mem_singleton.mpr rfl), rfl, rfl, rfl⟩
    · rename_i hcatch
      cases hfB : findNodeByLabel acc T B with
      | none => rw [hfB] at hB; exact absurd hB (by simp)
      | some nb =>
        cases hft : findNode acc e.tgt with
        | none => rw [hft] at htgt; exact absurd htgt (by simp)
        | some nt => exact (hcatch nb nt hfB hft).elim

theorem transferIn_ensures (T B : String) (acc : GraphState) (e : GEdge)
    (hB : (findNodeByLabel acc T B).isSome = true)
    (hsrc : (findNode acc e.src).isSome = true) :
    ∃ r ∈ (transferIn T B acc e).edges,
      r.src = e.src ∧ r.typ = e.typ ∧ r.tgt = B := by
  unfold transferIn
  by_cases hex : relExistsIn acc T e.src e.typ B = true
  · rw [if_pos hex]
    unfold relExistsIn at hex
    rw [Bool.and_eq_true, Bool.and_eq_true] at hex
    rcases List.any_eq_true.mp hex.2 with ⟨r, hr, hm⟩
    rw [Bool.and_eq_true, Bool.and_eq_true] at hm
    exact ⟨r, hr, eq_of_beq hm.1.1, eq_of_beq hm.1.2, eq_of_beq hm.2⟩
  · rw [if_neg hex]
    split
    · exact ⟨⟨e.src, e.typ, B, relPropsClean e.props⟩,
        List.mem_append_right _ (List.mem_singleton.mpr rfl), rfl, rfl, rfl⟩
    · rename_i hcatch
      cases hfs : findNode acc e.src with
      | none => rw [hfs] at hsrc; exact absurd hsrc (by simp)
      | some ns =>
        cases hfB : findNodeByLabel acc T B with
        | none => rw [hfB] at hB; exact absurd hB (by simp)
        | some nb => exact (hcatch ns nb hfs hfB).elim

theorem findNode_eq_of_nodes {s1 s2 : GraphState} (h : s1.nodes = s2.nodes)
    (x : String) : findNode s1 x = findNode s2 x := by
  unfold findNode
  rw [h]

theorem findNodeByLabel_eq_of_nodes {s1 s2 : GraphState}
    (h : s1.nodes = s2.nodes) (l x : String) :
    findNodeByLabel s1 l x = findNodeByLabel s2 l x := by
  unfold findNodeByLabel
  rw [h]

theorem foldl_transferOut_ensures (T B : String) (L : List GEdge) :
    ∀ acc : GraphState, ∀ e ∈ L,
      (findNodeByLabel acc T B).isSome = true →
      (findNode acc e.tgt).isSome = true →
      ∃ r ∈ (L.foldl (transferOut T B) acc).edges,
        r.src = B ∧ r.typ = e.typ ∧ r.tgt = e.tgt := by
  induction L with
  | nil => intro acc e he; exact absurd he (List.not_mem_nil e)
  | cons a L ih =>
    intro acc e he hB htgt
    rw [List.foldl_cons]
    rcases List.mem_cons.mp he with rfl | he2
    · rcases transferOut_ensures T B acc e hB htgt with ⟨r, hr, hprop⟩
      exact ⟨r, foldl_transferOut_mem T B L _ r hr, hprop⟩
    · have hn := transferOut_nodes T B acc a
      exact ih _ e he2
        (by rw [findNodeByLabel_eq_of_nodes hn]; exact hB)
        (by rw [findNode_eq_of_nodes hn]; exact htgt)

theorem foldl_transferIn_ensures (T B : String) (L : List GEdge) :
    ∀ acc : GraphState, ∀ e ∈ L,
      (findNodeByLabel acc T B).isSome = true →
      (findNode acc e.src).isSome = true →
      ∃ r ∈ (L.foldl (transferIn T B) acc).edges,
        r.src = e.src ∧ r.typ = e.typ ∧ r.tgt = B := by
  induction L with
  | nil => intro acc e he; exact absurd he (List.not_mem_nil e)
  | cons a L ih =>
    intro acc e he hB hsrc
    rw [List.foldl_cons]
    rcases List.mem_cons.mp he with rfl | he2
    · rcases transferIn_ensures T B acc e hB hsrc with ⟨r, hr, hprop⟩
      exact ⟨r, foldl_transferIn_mem T B L _ r hr, hprop⟩
    · have hn := transferIn_nodes T B acc a
      exact ih _ e he2
        (by rw [findNodeByLabel_eq_of_nodes hn]; exact hB)
        (by rw [findNode_eq_of_nodes hn]; exact hsrc)

theorem transferOut_cnt (T B : String) (acc : GraphState) (e : GEdge)
    (s ty tg : String) (h : 1 ≤ cntEdges acc s ty tg) :
    cntEdges (transferOut T B acc e) s ty tg = cntEdges acc s ty tg := by
  unfold transferOut
  by_cases hex : relExistsOut acc T B e.typ e.tgt = true
  · rw [if_pos hex]
  · rw [if_neg hex]
    split
    · rename_i nb nt hfB hft
      unfold cntEdges
      simp only [List.filter_append, List.length_append]
      have hnm : ((⟨B, e.typ, e.tgt, relPropsClean e.props⟩ : GEdge).src == s
          && (⟨B, e.typ, e.tgt, relPropsClean e.props⟩ : GEdge).typ == ty
          && (⟨B, e.typ, e.tgt, relPropsClean e.props⟩ : GEdge).tgt == tg)
          = false := by
        by_contra hc
        rw [Bool.not_eq_false, Bool.and_eq_true, Bool.and_eq_true] at hc
        have hs : B = s := eq_of_beq hc.1.1
        have hty : e.typ = ty := eq_of_beq hc.1.2
        have htg : e.tgt = tg := eq_of_beq hc.2
        apply hex
        unfold relExistsOut
        rw [hfB, hft]
        rw [Bool.and_eq_true, Bool.and_eq_true]
        refine ⟨⟨rfl, rfl⟩, ?_⟩
        rw [hs, hty, htg]
        exact (cntEdges_pos_iff_any acc s ty tg).mp h
      simp [List.filter_cons, hnm]
    · rfl

theorem transferIn_cnt (T B : String) (acc : GraphState) (e : GEdge)
    (s ty tg : String) (h : 1 ≤ cntEdges acc s ty tg) :
    cntEdges (transferIn T B acc e) s ty tg = cntEdges acc s ty tg := by
  unfold transferIn
  by_cases hex : relExistsIn acc T e.src e.typ B = true
  · rw [if_pos hex]
  · rw [if_neg hex]
    split
    · rename_i ns nb hfs hfB
      unfold cntEdges
      simp only [List.filter_append, List.length_append]
      have hnm : ((⟨e.src, e.typ, B, relPropsClean e.props⟩ : GEdge).src == s
          && (⟨e.src, e.typ, B, relPropsClean e.props⟩ : GEdge).typ == ty
          && (⟨e.src, e.typ, B, relPropsClean e.props⟩ : GEdge).tgt == tg)
          = false := by
        by_contra hc
        rw [Bool.not_eq_false, Bool.and_eq_true, Bool.and_eq_true] at hc
        have hs : e.src = s := eq_of_beq hc.1.1
        have hty : e.typ = ty := eq_of_beq hc.1.2
        have htg : B = tg := eq_of_beq hc.2
        apply hex
        unfold relExistsIn
        rw [hfs, hfB]
        rw [Bool.and_eq_true, Bool.and_eq_true]
        refine ⟨⟨rfl, rfl⟩, ?_⟩
        rw [hs, hty, htg]
        exact (cntEdges_pos_iff_any acc s ty tg).mp h
      simp [List.filter_cons, hnm]
    · rfl

theorem foldl_transferOut_cnt (T B : String) (L : List GEdge) :
    ∀ acc : GraphState, ∀ s ty tg : String, 1 ≤ cntEdges acc s ty tg →
      cntEdges (L.foldl (transferOut T B) acc) s ty tg
        = cntEdges acc s ty tg := by
  induction L with
  | nil => intro acc s ty tg _; rfl
  | cons e L ih =>
    intro acc s ty tg h
    rw [List.foldl_cons]
    have hstep := transferOut_cnt T B acc e s ty tg h
    rw [ih _ s ty tg (by rw [hstep]; exact h), hstep]

theorem foldl_transferIn_cnt (T B : String) (L : List GEdge) :
    ∀ acc : GraphState, ∀ s ty tg : String, 1 ≤ cntEdges acc s ty tg →
      cntEdges (L.foldl (transferIn T B) acc) s ty tg
        = cntEdges acc s ty tg := by
  induction L with
  | nil => intro acc s ty tg _; rfl
  | cons e L ih =>
    intro acc s ty tg h
    rw [List.foldl_cons]
    have hstep := transferIn_cnt T B acc e s ty tg h
    rw [ih _ s ty tg (by rw [hstep]; exact h), hstep]

theorem updateNodeProps_edges (st : GraphState) (l i : String) (u : Props) :
    (updateNodeProps st l i u).edges = st.edges := rfl

theorem updateNodeProps_findNode (st : GraphState) (l i : String)
    (u : Props) (x : String) :
    (findNode (updateNodeProps st l i u) x).isSome
      = (findNode st x).isSome := by
  unfold findNode updateNodeProps
  rw [List.find?_map]
  have hfun : ((fun n : GNode => n.id == x) ∘ (fun n : GNode =>
      if n.id == i && n.labels.contains l then
        { n with props := setProps n.props u }
      else n)) = (fun n : GNode => n.id == x) := by
    funext n
    simp only [Function.comp_apply]
    split
    · rfl
    · rfl
  rw [hfun]
  cases st.nodes.find? (fun n => n.id == x) <;> rfl

theorem updateNodeProps_findNodeByLabel (st : GraphState) (l i : String)
    (u : Props) (l2 x : String) :
    (findNodeByLabel (updateNodeProps st l i u) l2 x).isSome
      = (findNodeByLabel st l2 x).isSome := by
  unfold findNodeByLabel updateNodeProps
  rw [List.find?_map]
  have hfun : ((fun n : GNode => n.id == x && n.labels.contains l2) ∘
      (fun n : GNode =>
        if n.id == i && n.labels.contains l then
          { n with props := setProps n.props u }
        else n)) = (fun n : GNode => n.id == x && n.labels.contains l2) := by
    funext n
    simp only [Function.comp_apply]
    split
    · rfl
    · rfl
  rw [hfun]
  cases st.nodes.find? (fun n => n.id == x && n.labels.contains l2) <;> rfl

theorem transfer_relationships_spec (st : GraphState) (A B T : String)
    (hA : (findNodeByLabel st T A).isSome = true)
    (hB : (findNodeByLabel st T B).isSome = true) :
    (∀ e ∈ st.edges, e.src = A → (findNode st e.tgt).isSome = true →
      ∃ r ∈ (transfer_relationships st A B T).edges,
        r.src = B ∧ r.typ = e.typ ∧ r.tgt = e.tgt) ∧
    (∀ e ∈ st.edges, e.tgt = A → (findNode st e.src).isSome = true →
      ∃ r ∈ (transfer_relationships st A B T).edges,
        r.src = e.src ∧ r.typ = e.typ ∧ r.tgt = B) ∧
    (∀ s ty tg, 1 ≤ cntEdges st s ty tg →
      cntEdges (transfer_relationships st A B T) s ty tg
        = cntEdges st s ty tg) := by
  unfold transfer_relationships
  rw [if_pos hA, if_pos hA]
  refine ⟨?_, ?_, ?_⟩
  · intro e he hsrc htgt
    have hmem : e ∈ st.edges.filter
        (fun e => e.src == A && (findNode st e.tgt).isSome) :=
      List.mem_filter.mpr ⟨he, by rw [hsrc, htgt]; simp⟩
    rcases foldl_transferOut_ensures T B _ st e hmem hB htgt with ⟨r, hr, hp⟩
    exact ⟨r, foldl_transferIn_mem T B _ _ r hr, hp⟩
  · intro e he htgtA hsrc
    have hmem : e ∈ st.edges.filter
        (fun e => e.tgt == A && (findNode st e.src).isSome) :=
      List.mem_filter.mpr ⟨he, by rw [htgtA, hsrc]; simp⟩
    have hn := foldl_transferOut_nodes T B
      (st.edges.filter (fun e => e.src == A && (findNode st e.tgt).isSome)) st
    exact foldl_transferIn_ensures T B _ _ e hmem
      (by rw [findNodeByLabel_eq_of_nodes hn]; exact hB)
      (by rw [findNode_eq_of_nodes hn]; exact hsrc)
  · intro s ty tg h
    have h1 := foldl_transferOut_cnt T B
      (st.edges.filter (fun e => e.src == A && (findNode st e.tgt).isSome))
      st s ty tg h
    have h2 := foldl_transferIn_cnt T B
      (st.edges.filter (fun e => e.tgt == A && (findNode st e.src).isSome))
      _ s ty tg (by rw [h1]; exact h)
    rw [h2, h1]

/-- C5: after merge_entities(A, B, type) succeeds, every relationship that
was incident on the source A (outgoing and incoming, with an existing
other endpoint) is present on the target B with the same type and the
same other endpoint, and no duplicate edge is created for a (source,
type, target) triple B already carried — its count is unchanged, because
re-creation is skipped when an equivalent relationship already exists. -/
theorem merge_entities_transfers (env : Env) (st : GraphState)
    (A B T strat now : String) (out : MergeOutcome)
    (hm : merge_entities env st A B T strat now = .ok out) :
    (∀ e ∈ st.edges, e.src = A → (findNode st e.tgt).isSome = true →
      ∃ r ∈ out.state.edges, r.src = B ∧ r.typ = e.typ ∧ r.tgt = e.tgt) ∧
    (∀ e ∈ st.edges, e.tgt = A → (findNode st e.src).isSome = true →
      ∃ r ∈ out.state.edges, r.src = e.src ∧ r.typ = e.typ ∧ r.tgt = B) ∧
    (∀ s ty tg, 1 ≤ cntEdges st s ty tg →
      cntEdges out.state s ty tg = cntEdges st s ty tg) := by
  unfold merge_entities at hm
  cases hsA : findNodeByLabel st T A with
  | none => rw [hsA] at hm; simp at hm
  | some srcE =>
    rw [hsA] at hm
    cases hsB : findNodeByLabel st T B with
    | none => rw [hsB] at hm; simp at hm
    | some tgtE =>
      rw [hsB] at hm
      dsimp only at hm
      cases hfin : findNodeByLabel
          (updateNodeProps
            (transfer_relationships
              (updateNodeProps st T B (merge_properties srcE tgtE strat))
              A B T)
            T A
            [("merged", .bool true), ("merged_into", .str B),
             ("merged_at", .str now)]) T B with
      | none => rw [hfin] at hm; simp at hm
      | some n =>
        rw [hfin] at hm
        dsimp only at hm
        have hout : out.state =
            updateNodeProps
              (transfer_relationships
                (updateNodeProps st T B (merge_properties srcE tgtE strat))
                A B T)
              T A
              [("merged", .bool true), ("merged_into", .str B),
               ("merged_at", .str now)] := by
          injection hm with h2
          rw [← h2]
        have hA1 : (findNodeByLabel
            (updateNodeProps st T B (merge_properties srcE tgtE strat))
            T A).isSome = true := by
          rw [updateNodeProps_findNodeByLabel, hsA]; rfl
        have hB1 : (findNodeByLabel
            (updateNodeProps st T B (merge_properties srcE tgtE strat))
            T B).isSome = true := by
          rw [updateNodeProps_findNodeByLabel, hsB]; rfl
        have hspec := transfer_relationships_spec
          (updateNodeProps st T B (merge_properties srcE tgtE strat))
          A B T hA1 hB1
        refine ⟨?_, ?_, ?_⟩
        · intro e he hsrc htgt
          rcases hspec.1 e he hsrc
            (by rw [updateNodeProps_findNode]; exact htgt) with ⟨r, hr, hp⟩
          refine ⟨r, ?_, hp⟩
          rw [hout]
          exact hr
        · intro e he htgtA hsrc
          rcases hspec.2.1 e he htgtA
            (by rw [updateNodeProps_findNode]; exact hsrc) with ⟨r, hr, hp⟩
          refine ⟨r, ?_, hp⟩
          rw [hout]
          exact hr
        · intro s ty tg h
          rw [hout]
          exact hspec.2.2 s ty tg h

theorem find?_filter_none {α : Type} (l : List α) (p q : α → Bool)
    (h : l.find? p = none) : (l.filter q).find? p = none := by
  rw [List.find?_eq_none] at h ⊢
  intro x hx
  exact h x (List.mem_of_mem_filter hx)

theorem find?_tail_none {α : Type} (l : List α) (p : α → Bool)
    (h : l.find? p = none) : l.tail.find? p = none := by
  rw [List.find?_eq_none] at h ⊢
  intro x hx
  exact h x (List.mem_of_mem_tail hx)

theorem find?_filter_of_imp {α : Type} (l : List α) (p q : α → Bool)
    (himp : ∀ x, p x = true → q x = true) :
    (l.filter q).find? p = l.find? p := by
  induction l with
  | nil => rfl
  | cons a t ih =>
    by_cases hq : q a = true
    · rw [List.filter_cons_of_pos hq]
      cases hp : p a with
      | true =>
        rw [List.find?_cons_of_pos _ hp, List.find?_cons_of_pos _ hp]
      | false =>
        rw [List.find?_cons_of_neg _ (by rw [hp]; exact Bool.false_ne_true),
          List.find?_cons_of_neg _ (by rw [hp]; exact Bool.false_ne_true)]
        exact ih
    · rw [List.filter_cons_of_neg hq]
      have hp : p a = false := by
        cases hpa : p a with
        | true => exact absurd (himp a hpa) hq
        | false => rfl
      rw [List.find?_cons_of_neg _ (by rw [hp]; exact Bool.false_ne_true)]
      exact ih

/-- Absence of a key from the in-process cache. -/
def lruAbsent {α : Type} (c : LRUCache α) (k : String) : Prop :=
  c.entries.find? (fun kv => kv.1 == k) = none

theorem lruAbsent_get {α : Type} (c : LRUCache α) (t : Int) (k k2 : String)
    (h : lruAbsent c k) : lruAbsent (c.get t k2).2 k := by
  unfold lruAbsent at h ⊢
  unfold LRUCache.get
  cases hf : c.entries.find? (fun kv => kv.1 == k2) with
  | none => exact h
  | some kv =>
    by_cases hk : k = k2
    · subst hk
      rw [hf] at h
      exact Option.noConfusion h
    · dsimp only
      split
      · rw [List.find?_append, find?_filter_none _ _ _ h]
        simp only [Option.none_or]
        rw [List.find?_eq_none]
        intro x hx
        rw [List.mem_singleton.mp hx]
        rw [Bool.not_eq_true]
        exact beq_eq_false_iff_ne.mpr (fun he => hk he.symm)
      · exact find?_filter_none _ _ _ h

theorem lruAbsent_get_own {α : Type} (c : LRUCache α) (t : Int)
    (k : String) (h : (c.get t k).1 = none) : lruAbsent (c.get t k).2 k := by
  unfold lruAbsent
  unfold LRUCache.get at h ⊢
  cases hf : c.entries.find? (fun kv => kv.1 == k) with
  | none => exact hf
  | some kv =>
    rw [hf] at h
    dsimp only at h ⊢
    split at h
    next hlt => exact Option.noConfusion h
    next hlt =>
      rw [if_neg hlt]
      rw [List.find?_eq_none]
      intro x hx
      have hm := List.mem_filter.mp hx
      have h2 := hm.2
      rw [Bool.not_eq_true'] at h2
      rw [Bool.not_eq_true]
      exact h2

theorem lruAbsent_set {α : Type} (c : LRUCache α) (t : Int) (k k2 : String)
    (v : α) (h : lruAbsent c k) (hne : ¬ k2 = k) :
    lruAbsent (c.set t k2 v) k := by
  unfold lruAbsent at h ⊢
  unfold LRUCache.set
  dsimp only
  rw [List.find?_append]
  have hsingle : (List.find? (fun kv => kv.1 == k)
      [(k2, v, t + c.ttl)]) = none := by
    rw [List.find?_eq_none]
    intro x hx
    rw [List.mem_singleton.mp hx]
    rw [Bool.not_eq_true]
    exact beq_eq_false_iff_ne.mpr hne
  split
  · rw [find?_filter_none _ _ _ h, hsingle]
    rfl
  · split
    · rw [find?_tail_none _ _ h, hsingle]
      rfl
    · rw [h, hsingle]
      rfl

theorem lruAbsent_delete_self {α : Type} (c : LRUCache α) (k : String) :
    lruAbsent (c.delete k) k := by
  unfold lruAbsent LRUCache.delete
  rw [List.find?_eq_none]
  intro x hx
  have h2 := (List.mem_filter.mp hx).2
  rw [Bool.not_eq_true'] at h2
  rw [Bool.not_eq_true]
  exact h2

theorem lruAbsent_delete {α : Type} (c : LRUCache α) (k k2 : String)
    (h : lruAbsent c k) : lruAbsent (c.delete k2) k :=
  find?_filter_none _ _ _ h

theorem redisGet_delete_self (rs : RedisState) (now : Int) (k : String) :
    redisGet (redisDelete rs k) now k = none := by
  unfold redisGet redisDelete
  have h : (List.find? (fun e => e.key == k)
      (rs.filter (fun e => !(e.key == k)))) = none := by
    rw [List.find?_eq_none]
    intro x hx
    have h2 := (List.mem_filter.mp hx).2
    rw [Bool.not_eq_true'] at h2
    rw [Bool.not_eq_true]
    exact h2
  rw [h]

theorem redisGet_delete_ne (rs : RedisState) (now : Int) (k k2 : String)
    (hne : ¬ k2 = k) :
    redisGet (redisDelete rs k2) now k = redisGet rs now k := by
  unfold redisGet redisDelete
  rw [find?_filter_of_imp]
  intro x hx
  rw [Bool.not_eq_true', beq_eq_false_iff_ne]
  intro he
  exact hne (he ▸ eq_of_beq hx)

theorem redisGet_set_ne (rs : RedisState) (t now : Int) (k k2 : String)
    (v : RVal) (ttl : Option Int) (hne : ¬ k2 = k) :
    redisGet (redisSet rs t k2 v ttl) now k = redisGet rs now k := by
  unfold redisGet redisSet
  rw [List.find?_append]
  have hsingle : (List.find? (fun e => e.key == k)
      ([⟨k2, v, ttl.map (fun x => t + x)⟩] : RedisState)) = none := by
    rw [List.find?_eq_none]
    intro x hx
    rw [List.mem_singleton.mp hx]
    rw [Bool.not_eq_true]
    exact beq_eq_false_iff_ne.mpr hne
  rw [hsingle]
  rw [find?_filter_of_imp _ _ _ (by
    intro x hx
    rw [Bool.not_eq_true', beq_eq_false_iff_ne]
    intro he
    exact hne (he ▸ eq_of_beq hx))]
  cases rs.find? (fun e => e.key == k) <;> rfl

theorem redisGet_some_mem (rs : RedisState) (now : Int) (k : String)
    (v : RVal) (h : redisGet rs now k = some v) :
    ∃ e ∈ rs, e.key = k ∧ e.val = v := by
  unfold redisGet at h
  cases hf : rs.find? (fun e => e.key == k) with
  | none => rw [hf] at h; exact Option.noConfusion h
  | some e =>
    rw [hf] at h
    have hmem := List.mem_of_find?_eq_some hf
    have hp := List.find?_some hf
    have hkey : e.key = k := eq_of_beq hp
    refine ⟨e, hmem, hkey, ?_⟩
    dsimp only at h
    split at h
    · exact Option.some.inj h
    · split at h
      · exact Option.some.inj h
      · exact Option.noConfusion h

/-- Absence of a node cache key from both cache tiers (the in-process
entry is gone; the distributed tier serves nothing for the key). -/
def absentBoth (ctx : CacheCtx) (now : Int) (k : String) : Prop :=
  lruAbsent ctx.node_cache k ∧ redisGet ctx.redis_cache now k = none

theorem absentBoth_invalidate_self (ctx : CacheCtx) (now : Int)
    (i ty : String) :
    absentBoth (invalidate_node_cache ctx i ty) now (ty ++ ":" ++ i) :=
  ⟨lruAbsent_delete_self _ _, redisGet_delete_self _ _ _⟩

theorem absentBoth_invalidate_pres (ctx : CacheCtx) (now : Int)
    (i ty k : String) (h : absentBoth ctx now k) :
    absentBoth (invalidate_node_cache ctx i ty) now k := by
  by_cases hk : ty ++ ":" ++ i = k
  · exact hk ▸ absentBoth_invalidate_self ctx now i ty
  · refine ⟨lruAbsent_delete _ _ _ h.1, ?_⟩
    show redisGet (redisDelete ctx.redis_cache (ty ++ ":" ++ i)) now k = none
    rw [redisGet_delete_ne _ _ _ _ hk]
    exact h.2

/-- A key absent from both tiers makes get_node_with_cache read through to
the store: the value returned is exactly the store lookup. -/
theorem get_node_with_cache_miss (gst : GraphState) (ctx : CacheCtx)
    (now : Int) (nowStr : String) (node_id node_type : String)
    (h : absentBoth ctx now (node_type ++ ":" ++ node_id)) :
    (get_node_with_cache gst ctx now nowStr node_id node_type).1
      = get_node gst node_type [("id", .str node_id)] := by
  obtain ⟨h1, h2⟩ := h
  unfold lruAbsent at h1
  have hget : (ctx.node_cache.get now (node_type ++ ":" ++ node_id)).1
      = none := by
    unfold LRUCache.get
    rw [h1]
  unfold get_node_with_cache
  dsimp only
  rw [hget, h2]
  dsimp only
  cases hdb : get_node gst node_type [("id", PVal.str node_id)] with
  | some nd => rfl
  | none => rfl

theorem archiveOne_pres (env : Env) (ty : String) (now : Int)
    (nowStr : String) (s : GraphState × CacheCtx) (i k : String)
    (h : absentBoth s.2 now k) :
    absentBoth (archiveOne env ty now nowStr s i).2 now k := by
  obtain ⟨h1, h2⟩ := h
  unfold archiveOne get_node_with_cache
  dsimp only
  cases hg1 : (s.2.node_cache.get now (ty ++ ":" ++ i)).1 with
  | some cached =>
    dsimp only
    exact absentBoth_invalidate_pres _ _ _ _ _ ⟨lruAbsent_get _ _ _ _ h1, h2⟩
  | none =>
    dsimp only
    cases hg2 : redisGet s.2.redis_cache now (ty ++ ":" ++ i) with
    | some rv =>
      cases rv with
      | node cached =>
        dsimp only
        by_cases hk : (ty ++ ":" ++ i) = k
        · exact hk ▸ absentBoth_invalidate_self _ now i ty
        · exact absentBoth_invalidate_pres _ _ _ _ _
            ⟨lruAbsent_set _ _ _ _ _ (lruAbsent_get _ _ _ _ h1) hk, h2⟩
      | hybrid hres =>
        dsimp only
        cases hdb : get_node s.1 ty [("id", PVal.str i)] with
        | some nd =>
          dsimp only
          by_cases hk : (ty ++ ":" ++ i) = k
          · exact hk ▸ absentBoth_invalidate_self _ now i ty
          · exact absentBoth_invalidate_pres _ _ _ _ _
              ⟨lruAbsent_set _ _ _ _ _ (lruAbsent_get _ _ _ _ h1) hk,
               by rw [redisGet_set_ne _ _ _ _ _ _ _ hk]; exact h2⟩
        | none =>
          exact ⟨lruAbsent_get _ _ _ _ h1, h2⟩
    | none =>
      dsimp only
      cases hdb : get_node s.1 ty [("id", PVal.str i)] with
      | some nd =>
        dsimp only
        by_cases hk : (ty ++ ":" ++ i) = k
        · exact hk ▸ absentBoth_invalidate_self _ now i ty
        · exact absentBoth_invalidate_pres _ _ _ _ _
            ⟨lruAbsent_set _ _ _ _ _ (lruAbsent_get _ _ _ _ h1) hk,
             by rw [redisGet_set_ne _ _ _ _ _ _ _ hk]; exact h2⟩
      | none =>
        exact ⟨lruAbsent_get _ _ _ _ h1, h2⟩

theorem archiveOne_own (env : Env) (ty : String) (now : Int)
    (nowStr : String) (s : GraphState × CacheCtx) (i : String)
    (hP : ∀ e ∈ s.2.redis_cache, e.key = ty ++ ":" ++ i →
      ∃ n, e.val = RVal.node n) :
    absentBoth (archiveOne env ty now nowStr s i).2 now (ty ++ ":" ++ i) := by
  unfold archiveOne get_node_with_cache
  dsimp only
  cases hg1 : (s.2.node_cache.get now (ty ++ ":" ++ i)).1 with
  | some cached =>
    dsimp only
    exact absentBoth_invalidate_self _ now i ty
  | none =>
    dsimp only
    cases hg2 : redisGet s.2.redis_cache now (ty ++ ":" ++ i) with
    | some rv =>
      cases rv with
      | node cached =>
        dsimp only
        exact absentBoth_invalidate_self _ now i ty
      | hybrid hres =>
        obtain ⟨e, hmem, hkey, hval⟩ := redisGet_some_mem _ _ _ _ hg2
        obtain ⟨n, hn⟩ := hP e hmem hkey
        rw [hn] at hval
        exact RVal.noConfusion hval
    | none =>
      dsimp only
      cases hdb : get_node s.1 ty [("id", PVal.str i)] with
      | some nd =>
        dsimp only
        exact absentBoth_invalidate_self _ now i ty
      | none =>
        exact ⟨lruAbsent_get_own _ _ _ hg1, hg2⟩

theorem archiveOne_P_pres (env : Env) (ty : String) (now : Int)
    (nowStr : String) (s : GraphState × CacheCtx) (i k2 : String)
    (hP : ∀ e ∈ s.2.redis_cache, e.key = k2 → ∃ n, e.val = RVal.node n) :
    ∀ e ∈ (archiveOne env ty now nowStr s i).2.redis_cache, e.key = k2 →
      ∃ n, e.val = RVal.node n := by
  unfold archiveOne get_node_with_cache invalidate_node_cache redisDelete redisSet
  dsimp only
  cases hg1 : (s.2.node_cache.get now (ty ++ ":" ++ i)).1 with
  | some cached =>
    dsimp only
    intro e he hk
    exact hP e (List.mem_of_mem_filter he) hk
  | none =>
    dsimp only
    cases hg2 : redisGet s.2.redis_cache now (ty ++ ":" ++ i) with
    | some rv =>
      cases rv with
      | node cached =>
        dsimp only
        intro e he hk
        exact hP e (List.mem_of_mem_filter he) hk
      | hybrid hres =>
        dsimp only
        cases hdb : get_node s.1 ty [("id", PVal.str i)] with
        | some nd =>
          dsimp only
          intro e he hk
          rcases List.mem_append.mp (List.mem_of_mem_filter he) with hl | hr
          · exact hP e (List.mem_of_mem_filter hl) hk
          · rw [List.mem_singleton.mp hr]
            exact ⟨nd, rfl⟩
        | none =>
          dsimp only
          intro e he hk
          exact hP e he hk
    | none =>
      dsimp only
      cases hdb : get_node s.1 ty [("id", PVal.str i)] with
      | some nd =>
        dsimp only
        intro e he hk
        rcases List.mem_append.mp (List.mem_of_mem_filter he) with hl | hr
        · exact hP e (List.mem_of_mem_filter hl) hk
        · rw [List.mem_singleton.mp hr]
          exact ⟨nd, rfl⟩
      | none =>
        dsimp only
        intro e he hk
        exact hP e he hk

theorem archive_foldl_pres (env : Env) (ty : String) (now : Int)
    (nowStr : String) (batch : List String) (s : GraphState × CacheCtx)
    (k : String) (h : absentBoth s.2 now k) :
    absentBoth (batch.foldl (archiveOne env ty now nowStr) s).2 now k := by
  induction batch generalizing s with
  | nil => exact h
  | cons i rest ih =>
    exact ih _ (archiveOne_pres env ty now nowStr s i k h)

theorem archive_nodes_absent (env : Env) (ty : String) (now : Int)
    (nowStr : String) (batch : List String) (s : GraphState × CacheCtx)
    (hP : ∀ i ∈ batch, ∀ e ∈ s.2.redis_cache, e.key = ty ++ ":" ++ i →
      ∃ n, e.val = RVal.node n) :
    ∀ i ∈ batch,
      absentBoth (batch.foldl (archiveOne env ty now nowStr) s).2 now
        (ty ++ ":" ++ i) := by
  induction batch generalizing s with
  | nil =>
    intro i hi
    exact absurd hi (List.not_mem_nil i)
  | cons j rest ih =>
    intro i hi
    rw [List.foldl_cons]
    rcases List.mem_cons.mp hi with heq | hmem
    · subst heq
      exact archive_foldl_pres env ty now nowStr rest _ _
        (archiveOne_own env ty now nowStr s i
          (hP i (List.mem_cons_self _ _)))
    · exact ih _
        (fun i2 hi2 => archiveOne_P_pres env ty now nowStr s j _
          (hP i2 (List.mem_cons_of_mem _ hi2)))
        i hmem

/-! Concrete fixtures used by witnesses, counterexamples and code-bug
evaluations. -/

/-- A trivial environment: the fuzzy scorer always reports 100, the
embedding and vector search collaborators return nothing. -/
def envFuzzy : Env :=
  { fuzzScore := fun _ _ => 100
    getEmbedding := fun _ => []
    genEmbedding := fun _ => []
    vdbSearch := fun _ _ _ => []
    searchVectors := fun _ _ _ => []
    pyHash := fun _ => 0
    coldStore := fun _ => "cold:ref" }

/-- A Person node for the resolution fixtures. -/
def bobNode : GNode :=
  ⟨"p1", ["Person"], [("email", .str "bob@x.com"), ("name", .str "Bob")]⟩

/-- A one-person graph. -/
def stBob : GraphState := ⟨[bobNode], []⟩

/-- A candidate that matches bobNode both by email identifier and by fuzzy
name. -/
def bobCandidate : EntityData :=
  { props := [("email", .str "bob@x.com"), ("name", .str "Bob")] }

end GraphRAG

namespace GraphRAG

/-- C10: the phone normaliser is digit-pure and idempotent, and leaves an
all-digit string unchanged. -/
theorem normalize_phone_digit_pure_idempotent (s : String) :
    ((normalize_phone s).data.all Char.isDigit = true ∧
      normalize_phone (normalize_phone s) = normalize_phone s) ∧
    (s.data.all Char.isDigit = true → normalize_phone s = s) := by
  refine ⟨⟨?_, ?_⟩, ?_⟩
  · show (s.data.filter Char.isDigit).all Char.isDigit = true
    rw [List.all_eq_true]
    intro x hx
    exact (List.mem_filter.mp hx).2
  · show (⟨((s.data.filter Char.isDigit).filter Char.isDigit : List Char)⟩ : String)
      = ⟨s.data.filter Char.isDigit⟩
    congr 1
    exact List.filter_eq_self.mpr (fun a ha => (List.mem_filter.mp ha).2)
  · intro h
    show (⟨(s.data.filter Char.isDigit : List Char)⟩ : String) = s
    have hf : s.data.filter Char.isDigit = s.data :=
      List.filter_eq_self.mpr (fun a ha => List.all_eq_true.mp h a ha)
    rw [hf]

/-- Witness for C10 at a concrete phone string and a concrete all-digit
string. -/
theorem normalize_phone_digit_pure_idempotent_witness :
    (((normalize_phone "+1 (555) 010-0199").data.all Char.isDigit = true ∧
      normalize_phone (normalize_phone "+1 (555) 010-0199")
        = normalize_phone "+1 (555) 010-0199") ∧
     normalize_phone "15550100199" = "15550100199") :=
  ⟨(normalize_phone_digit_pure_idempotent "+1 (555) 010-0199").1,
   (normalize_phone_digit_pure_idempotent "15550100199").2 (by decide)⟩

theorem processRecords_length (maxn hop : Nat) (visited : List String) :
    ∀ recs (nodes : List GNode) (rels : List GEdge)
      (acc : List (String × Nat)), nodes.length < maxn →
      (processRecords maxn hop visited recs nodes rels acc).1.length
        ≤ maxn := by
  intro recs
  induction recs with
  | nil => intro nodes rels acc h; exact Nat.le_of_lt h
  | cons row rest ih =>
    intro nodes rels acc h
    simp only [processRecords]
    cases hrow : row.1 with
    | none =>
      dsimp only
      split
      · exact Nat.le_of_lt h
      · exact ih nodes _ acc h
    | some m =>
      dsimp only
      by_cases hc : (!(visited.contains m.id)) = true
      · rw [if_pos hc]
        dsimp only
        have hl : (nodes ++ [m]).length = nodes.length + 1 := by simp
        split
        · rw [hl]; omega
        · rename_i hnot
          exact ih _ _ _ (by omega)
      · rw [if_neg hc]
        dsimp only
        split
        · exact Nat.le_of_lt h
        · exact ih nodes _ acc h

theorem traverseSteps_length (st : GraphState) (maxh maxn : Nat)
    (rf nf : Option (List String)) :
    ∀ (fuel : Nat) q v (nodes : List GNode) (rels : List GEdge) out,
      traverseSteps st maxh maxn rf nf fuel q v nodes rels = some out →
      nodes.length < maxn → out.1.length ≤ maxn := by
  intro fuel
  induction fuel with
  | zero =>
    intro q v nodes rels out h hlt
    cases q with
    | nil =>
      simp only [traverseSteps] at h
      injection h with h
      rw [← h]
      exact Nat.le_of_lt hlt
    | cons a t => simp [traverseSteps] at h
  | succ f ih =>
    intro q v nodes rels out h hlt
    cases q with
    | nil =>
      simp only [traverseSteps] at h
      injection h with h
      rw [← h]
      exact Nat.le_of_lt hlt
    | cons hd t =>
      obtain ⟨c, hp⟩ := hd
      simp only [traverseSteps] at h
      split at h
      · exact ih t v nodes rels out h hlt
      · split at h
        · injection h with h
          rw [← h]
          exact processRecords_length maxn hp (c :: v) _ nodes rels [] hlt
        · rename_i hnot
          exact ih _ _ _ _ out h (by omega)

theorem traverseSteps_succ (st : GraphState) (maxh maxn : Nat)
    (rf nf : Option (List String)) :
    ∀ (fuel : Nat) q v (nodes : List GNode) (rels : List GEdge) out,
      traverseSteps st maxh maxn rf nf fuel q v nodes rels = some out →
      traverseSteps st maxh maxn rf nf (fuel + 1) q v nodes rels
        = some out := by
  intro fuel
  induction fuel with
  | zero =>
    intro q v nodes rels out h
    cases q with
    | nil => exact h
    | cons a t => simp [traverseSteps] at h
  | succ f ih =>
    intro q v nodes rels out h
    cases q with
    | nil => exact h
    | cons hd t =>
      obtain ⟨c, hp⟩ := hd
      simp only [traverseSteps] at h ⊢
      split at h
      · rename_i hg
        rw [if_pos hg]
        exact ih t v nodes rels out h
      · rename_i hg
        rw [if_neg hg]
        split at h
        · rename_i hbrk
          rw [if_pos hbrk]
          exact h
        · rename_i hbrk
          rw [if_neg hbrk]
          exact ih _ _ _ _ out h

theorem traverseSteps_le (st : GraphState) (maxh maxn : Nat)
    (rf nf : Option (List String)) (f1 f2 : Nat) (hle : f1 ≤ f2) :
    ∀ q v (nodes : List GNode) (rels : List GEdge) out,
      traverseSteps st maxh maxn rf nf f1 q v nodes rels = some out →
      traverseSteps st maxh maxn rf nf f2 q v nodes rels = some out := by
  induction hle with
  | refl => intro q v nodes rels out h; exact h
  | step h2 ih =>
    intro q v nodes rels out h
    exact traverseSteps_succ st maxh maxn rf nf _ q v nodes rels out
      (ih q v nodes rels out h)

theorem traverseAux_terminates (st : GraphState) (maxh maxn : Nat)
    (rf nf : Option (List String)) :
    ∀ q v (nodes : List GNode) (rels : List GEdge), ∃ fuel,
      traverseSteps st maxh maxn rf nf fuel q v nodes rels
        = some (traverseAux st maxh maxn rf nf q v nodes rels) := by
  intro q v nodes rels
  induction q, v, nodes, rels using traverseAux.induct st maxh maxn rf nf with
  | case1 v nodes rels =>
    exact ⟨0, by simp only [traverseSteps, traverseAux.eq_1]⟩
  | case2 current_id hop rest v nodes rels hg ih =>
    obtain ⟨fuel, hf⟩ := ih
    refine ⟨fuel + 1, ?_⟩
    rw [traverseAux.eq_2, if_pos hg]
    simp only [traverseSteps]
    rw [if_pos hg]
    exact hf
  | case3 current_id hop rest v nodes rels hg pr hbrk =>
    refine ⟨1, ?_⟩
    have hbrk2 : maxn ≤ (processRecords maxn hop (current_id :: v)
        (expandFromNode st current_id rf nf maxn) nodes rels []).1.length :=
      hbrk
    rw [traverseAux.eq_2, if_neg hg]
    rw [if_pos hbrk2]
    simp only [traverseSteps]
    rw [if_neg hg]
    rw [if_pos hbrk2]
  | case4 current_id hop rest v nodes rels hg pr hbrk ih =>
    obtain ⟨fuel, hf⟩ := ih
    refine ⟨fuel + 1, ?_⟩
    have hbrk2 : ¬ maxn ≤ (processRecords maxn hop (current_id :: v)
        (expandFromNode st current_id rf nf maxn) nodes rels []).1.length :=
      hbrk
    rw [traverseAux.eq_2, if_neg hg]
    rw [if_neg hbrk2]
    simp only [traverseSteps]
    rw [if_neg hg]
    rw [if_neg hbrk2]
    exact hf

theorem traverse_from_seeds_eq_of_steps (st : GraphState)
    (seeds : List String) (maxh maxn : Nat)
    (rf nf : Option (List String)) (fuel : Nat)
    (out : List GNode × List GEdge)
    (h : traverseSteps st maxh maxn rf nf fuel
      (seeds.map (fun i => (i, 0))) [] [] [] = some out) :
    traverse_from_seeds st seeds maxh maxn rf nf = out := by
  obtain ⟨f2, hf2⟩ := traverseAux_terminates st maxh maxn rf nf
    (seeds.map (fun i => (i, 0))) [] [] []
  rcases Nat.le_total fuel f2 with hle | hle
  · have h2 := traverseSteps_le st maxh maxn rf nf fuel f2 hle _ _ _ _ _ h
    have h3 : some (traverseAux st maxh maxn rf nf
        (seeds.map (fun i => (i, 0))) [] [] []) = some out := by
      rw [← hf2]
      exact h2
    exact Option.some.inj h3
  · have h2 := traverseSteps_le st maxh maxn rf nf f2 fuel hle _ _ _ _ _ hf2
    have h3 : some out = some (traverseAux st maxh maxn rf nf
        (seeds.map (fun i => (i, 0))) [] [] []) := by
      rw [← h]
      exact h2
    exact (Option.some.inj h3).symm

theorem dedupList_subset {α : Type} [BEq α] (l : List α) (x : α)
    (h : x ∈ dedupList l) : x ∈ l := by
  unfold dedupList at h
  suffices haux : ∀ (l : List α) (acc : List α),
      x ∈ l.foldl (fun acc x => if acc.contains x then acc else acc ++ [x])
        acc → x ∈ acc ∨ x ∈ l by
    rcases haux l [] h with h2 | h2
    · exact absurd h2 (List.not_mem_nil x)
    · exact h2
  intro l
  induction l with
  | nil => intro acc h2; exact Or.inl h2
  | cons a t ih =>
    intro acc h2
    rw [List.foldl_cons] at h2
    rcases ih _ h2 with h3 | h3
    · split at h3
      · exact Or.inl h3
      · rcases List.mem_append.mp h3 with h4 | h4
        · exact Or.inl h4
        · exact Or.inr (List.mem_cons.mpr (Or.inl (List.mem_singleton.mp h4)))
    · exact Or.inr (List.mem_cons.mpr (Or.inr h3))

theorem processRecords_nodes_mem (maxn hop : Nat) (vis : List String) :
    ∀ recs (nodes : List GNode) (rels : List GEdge)
      (acc : List (String × Nat)),
      ∀ m ∈ (processRecords maxn hop vis recs nodes rels acc).1,
        m ∈ nodes ∨
          ((∃ ropt, (some m, ropt) ∈ recs) ∧ vis.contains m.id = false) := by
  intro recs
  induction recs with
  | nil => intro nodes rels acc m hm; exact Or.inl hm
  | cons row rest ih =>
    intro nodes rels acc m hm
    simp only [processRecords] at hm
    have hweak : ∀ x : GNode,
        (∃ ropt, (some x, ropt) ∈ rest) ∧ vis.contains x.id = false →
        (∃ ropt, (some x, ropt) ∈ row :: rest) ∧ vis.contains x.id
          = false := by
      rintro x ⟨⟨ropt, hr⟩, hc⟩
      exact ⟨⟨ropt, List.mem_cons.mpr (Or.inr hr)⟩, hc⟩
    cases hrow : row.1 with
    | none =>
      rw [hrow] at hm
      dsimp only at hm
      split at hm
      · exact Or.inl hm
      · rcases ih nodes _ acc m hm with h | h
        · exact Or.inl h
        · exact Or.inr (hweak m h)
    | some m0 =>
      rw [hrow] at hm
      dsimp only at hm
      have hrowmem : (some m0, row.2) ∈ row :: rest := by
        rw [← hrow]
        exact List.mem_cons_self row rest
      by_cases hc : (!(vis.contains m0.id)) = true
      · rw [if_pos hc] at hm
        dsimp only at hm
        have hnc : vis.contains m0.id = false := by
          rw [Bool.not_eq_true'] at hc
          exact hc
        split at hm
        · rcases List.mem_append.mp hm with h | h
          · exact Or.inl h
          · rw [List.mem_singleton.mp h]
            exact Or.inr ⟨⟨row.2, hrowmem⟩, by rw [List.mem_singleton.mp h] at *; exact hnc⟩
        · rcases ih _ _ _ m hm with h | h
          · rcases List.mem_append.mp h with h2 | h2
            · exact Or.inl h2
            · rw [List.mem_singleton.mp h2]
              exact Or.inr ⟨⟨row.2, hrowmem⟩, hnc⟩
          · exact Or.inr (hweak m h)
      · rw [if_neg hc] at hm
        dsimp only at hm
        split at hm
        · exact Or.inl hm
        · rcases ih nodes _ acc m hm with h | h
          · exact Or.inl h
          · exact Or.inr (hweak m h)

theorem processRecords_queue_mem (maxn hop : Nat) (vis : List String) :
    ∀ recs (nodes : List GNode) (rels : List GEdge)
      (acc : List (String × Nat)),
      ∀ q ∈ (processRecords maxn hop vis recs nodes rels acc).2.2,
        q ∈ acc ∨ ∃ m : GNode, q = (m.id, hop + 1) ∧
          (∃ ropt, (some m, ropt) ∈ recs) ∧ vis.contains m.id = false := by
  intro recs
  induction recs with
  | nil => intro nodes rels acc q hq; exact Or.inl hq
  | cons row rest ih =>
    intro nodes rels acc q hq
    simp only [processRecords] at hq
    have hweak : ∀ x : GNode,
        (∃ ropt, (some x, ropt) ∈ rest) ∧ vis.contains x.id = false →
        (∃ ropt, (some x, ropt) ∈ row :: rest) ∧ vis.contains x.id
          = false := by
      rintro x ⟨⟨ropt, hr⟩, hc⟩
      exact ⟨⟨ropt, List.mem_cons.mpr (Or.inr hr)⟩, hc⟩
    cases hrow : row.1 with
    | none =>
      rw [hrow] at hq
      dsimp only at hq
      split at hq
      · exact Or.inl hq
      · rcases ih nodes _ acc q hq with h | ⟨m, hm1, hm2⟩
        · exact Or.inl h
        · exact Or.inr ⟨m, hm1, hweak m hm2⟩
    | some m0 =>
      rw [hrow] at hq
      dsimp only at hq
      have hrowmem : (some m0, row.2) ∈ row :: rest := by
        rw [← hrow]
        exact List.mem_cons_self row rest
      by_cases hc : (!(vis.contains m0.id)) = true
      · rw [if_pos hc] at hq
        dsimp only at hq
        have hnc : vis.contains m0.id = false := by
          rw [Bool.not_eq_true'] at hc
          exact hc
        split at hq
        · rcases List.mem_append.mp hq with h | h
          · exact Or.inl h
          · exact Or.inr ⟨m0, List.mem_singleton.mp h, ⟨row.2, hrowmem⟩, hnc⟩
        · rcases ih _ _ _ q hq with h | ⟨m, hm1, hm2⟩
          · rcases List.mem_append.mp h with h2 | h2
            · exact Or.inl h2
            · exact Or.inr ⟨m0, List.mem_singleton.mp h2, ⟨row.2, hrowmem⟩, hnc⟩
          · exact Or.inr ⟨m, hm1, hweak m hm2⟩
      · rw [if_neg hc] at hq
        dsimp only at hq
        split at hq
        · exact Or.inl hq
        · rcases ih nodes _ acc q hq with h | ⟨m, hm1, hm2⟩
          · exact Or.inl h
          · exact Or.inr ⟨m, hm1, hweak m hm2⟩

theorem processRecords_rels_mem (maxn hop : Nat) (vis : List String) :
    ∀ recs (nodes : List GNode) (rels : List GEdge)
      (acc : List (String × Nat)),
      ∀ r ∈ (processRecords maxn hop vis recs nodes rels acc).2.1,
        r ∈ rels ∨ ∃ mopt, (mopt, some r) ∈ recs := by
  intro recs
  induction recs with
  | nil => intro nodes rels acc r hr; exact Or.inl hr
  | cons row rest ih =>
    intro nodes rels acc r hr
    simp only [processRecords] at hr
    have hweak : ∀ x : GEdge, (∃ mopt, (mopt, some x) ∈ rest) →
        ∃ mopt, (mopt, some x) ∈ row :: rest := by
      rintro x ⟨mopt, hm⟩
      exact ⟨mopt, List.mem_cons.mpr (Or.inr hm)⟩
    cases hrow2 : row.2 with
    | none =>
      rw [hrow2] at hr
      dsimp only at hr
      split at hr
      · exact Or.inl hr
      · rcases ih _ _ _ r hr with h | h
        · exact Or.inl h
        · exact Or.inr (hweak r h)
    | some r0 =>
      rw [hrow2] at hr
      dsimp only at hr
      have hrowmem : (row.1, some r0) ∈ row :: rest := by
        rw [← hrow2]
        exact List.mem_cons_self row rest
      split at hr
      · rcases List.mem_append.mp hr with h | h
        · exact Or.inl h
        · rw [List.mem_singleton.mp h]
          exact Or.inr ⟨row.1, hrowmem⟩
      · rcases ih _ _ _ r hr with h | h
        · rcases List.mem_append.mp h with h2 | h2
          · exact Or.inl h2
          · rw [List.mem_singleton.mp h2]
            exact Or.inr ⟨row.1, hrowmem⟩
        · exact Or.inr (hweak r h)

theorem expandFromNode_mem (st : GraphState) (current : String)
    (rf nf : Option (List String)) (lim : Nat) (m : GNode) (e : GEdge)
    (h : (some m, some e) ∈ expandFromNode st current rf nf lim) :
    e ∈ st.edges ∧ relFilterOk rf e = true ∧ nodeFilterOk nf m = true ∧
      ((e.src = current ∧ findNode st e.tgt = some m) ∨
       (e.tgt = current ∧ findNode st e.src = some m)) := by
  unfold expandFromNode at h
  split at h
  · exact absurd h (List.not_mem_nil _)
  · have h2 := dedupList_subset _ _ h
    rcases List.mem_append.mp h2 with hout | hin
    · rcases List.mem_filterMap.mp hout with ⟨e0, he0, hf⟩
      split at hf
      · rename_i hcond
        rw [Bool.and_eq_true] at hcond
        split at hf
        · rename_i m1 hfind
          split at hf
          · rename_i hnode
            injection hf with hf
            injection hf with hf1 hf2
            injection hf1 with hf1
            injection hf2 with hf2
            subst hf1
            subst hf2
            exact ⟨he0, hcond.2, hnode, Or.inl ⟨eq_of_beq hcond.1, hfind⟩⟩
          · exact Option.noConfusion hf
        · exact Option.noConfusion hf
      · exact Option.noConfusion hf
    · have hin2 := List.take_subset _ _ hin
      rcases List.mem_filterMap.mp hin2 with ⟨e0, he0, hf⟩
      split at hf
      · rename_i hcond
        rw [Bool.and_eq_true] at hcond
        split at hf
        · rename_i m1 hfind
          split at hf
          · rename_i hnode
            injection hf with hf
            injection hf with hf1 hf2
            injection hf1 with hf1
            injection hf2 with hf2
            subst hf1
            subst hf2
            exact ⟨he0, hcond.2, hnode, Or.inr ⟨eq_of_beq hcond.1, hfind⟩⟩
          · exact Option.noConfusion hf
        · exact Option.noConfusion hf
      · exact Option.noConfusion hf

/-- Line fixture: node a with one edge to node x. -/
def stLine : GraphState :=
  ⟨[⟨"a", [], []⟩, ⟨"x", [], []⟩],
   [⟨"a", "R", "x", [("w", .num 1)]⟩]⟩

/-- Pair fixture: nodes a and x joined by one edge in each direction, so
expanding a yields two rows that both reach x. -/
def stPair : GraphState :=
  ⟨[⟨"a", [], []⟩, ⟨"x", [], []⟩],
   [⟨"a", "R", "x", [("w", .num 1)]⟩, ⟨"x", "S", "a", [("w", .num 2)]⟩]⟩

/-- Counterexample to C6 as stated: with max_nodes_per_hop = 0 the
traversal still returns one node, because the budget check runs only
after a record has been appended, so the bound claim fails at 0; see the
amended theorem for the bound under 1 ≤ max_nodes_per_hop. -/
theorem traverse_zero_budget_still_returns_a_node :
    (traverse_from_seeds stLine ["a"] 1 0 none none).1.length = 1 := by
  have h : (traverseSteps stLine 1 0 none none 4
      ((["a"] : List String).map (fun i => (i, 0))) [] [] []).map
        (fun out => out.1.length) = some 1 := by decide
  cases heval : traverseSteps stLine 1 0 none none 4
      ((["a"] : List String).map (fun i => (i, 0))) [] [] [] with
  | none => rw [heval] at h; exact Option.noConfusion h
  | some out =>
    rw [traverse_from_seeds_eq_of_steps stLine ["a"] 1 0 none none 4 out
      heval]
    rw [heval] at h
    exact Option.some.inj h

/-- C6 amended: for every seed set and graph (cyclic graphs included) the
traversal terminates — a run with enough fuel completes with exactly the
returned value, the visited set preventing re-expansion — and whenever
max_nodes_per_hop is at least 1 the returned node list has length at most
max_nodes_per_hop, expansion stopping as soon as the count reaches the
budget, even mid-hop (with budget 0 a single node can still be returned,
since the check runs after an append; see the counterexample). -/
theorem traverse_from_seeds_terminates_bounded (st : GraphState)
    (seeds : List String) (maxh maxn : Nat)
    (rf nf : Option (List String)) :
    (∃ fuel, traverseSteps st maxh maxn rf nf fuel
        (seeds.map (fun i => (i, 0))) [] [] []
      = some (traverse_from_seeds st seeds maxh maxn rf nf)) ∧
    (1 ≤ maxn →
      (traverse_from_seeds st seeds maxh maxn rf nf).1.length ≤ maxn) := by
  constructor
  · exact traverseAux_terminates st maxh maxn rf nf
      (seeds.map (fun i => (i, 0))) [] [] []
  · intro h1
    obtain ⟨fuel, hf⟩ := traverseAux_terminates st maxh maxn rf nf
      (seeds.map (fun i => (i, 0))) [] [] []
    exact traverseSteps_length st maxh maxn rf nf fuel _ _ _ _ _ hf
      (by simp only [List.length_nil]; omega)

/-- Witness for the amended C6 at a concrete graph and budget 25. -/
theorem traverse_from_seeds_terminates_bounded_witness :
    (∃ fuel, traverseSteps stLine 2 25 none none fuel
        ((["a"] : List String).map (fun i => (i, 0))) [] [] []
      = some (traverse_from_seeds stLine ["a"] 2 25 none none)) ∧
    (traverse_from_seeds stLine ["a"] 2 25 none none).1.length ≤ 25 :=
  ⟨(traverse_from_seeds_terminates_bounded stLine ["a"] 2 25 none none).1,
   (traverse_from_seeds_terminates_bounded stLine ["a"] 2 25 none none).2
     (by decide)⟩

/-- Counterexample to C7 as stated: the neighbor check tests membership in
the visited set (nodes already dequeued and expanded), not in the output
list, so a node reached by two rows before being dequeued is appended
twice — here both edges between a and x yield x, and the output node list
holds x twice. -/
theorem traverse_appends_node_twice :
    (traverse_from_seeds stPair ["a"] 2 25 none none).1.map
      (fun n => n.id) = ["x", "x"] := by
  have h : (traverseSteps stPair 2 25 none none 8
      ((["a"] : List String).map (fun i => (i, 0))) [] [] []).map
        (fun out => out.1.map (fun n => n.id)) = some ["x", "x"] := by
    decide
  cases heval : traverseSteps stPair 2 25 none none 8
      ((["a"] : List String).map (fun i => (i, 0))) [] [] [] with
  | none => rw [heval] at h; exact Option.noConfusion h
  | some out =>
    rw [traverse_from_seeds_eq_of_steps stPair ["a"] 2 25 none none 8 out
      heval]
    rw [heval] at h
    exact Option.some.inj h

/-- C7 amended: each dequeued (node, hop) pair is skipped when hop exceeds
max_hops or the node is already visited; otherwise the node is marked
visited and its distance-1 outbound and inbound neighbors — restricted to
the relationship-type and node-type filters — are fetched, neighbor rows
whose node is not in the visited set are appended to the output node list
and enqueued at hop+1 (a node not yet dequeued can therefore be appended
more than once; see the counterexample), and the connecting relationships
of the fetched rows are appended. -/
theorem traverse_step_characterization (st : GraphState)
    (maxh maxn : Nat) (rf nf : Option (List String)) (current : String)
    (hop : Nat) (rest : List (String × Nat)) (v : List String)
    (nodes : List GNode) (rels : List GEdge) :
    (maxh < hop ∨ v.contains current →
      traverseAux st maxh maxn rf nf ((current, hop) :: rest) v nodes rels
        = traverseAux st maxh maxn rf nf rest v nodes rels) ∧
    (¬(maxh < hop ∨ v.contains current) →
      traverseAux st maxh maxn rf nf ((current, hop) :: rest) v nodes rels
        = (let pr := processRecords maxn hop (current :: v)
            (expandFromNode st current rf nf maxn) nodes rels [];
          if maxn ≤ pr.1.length then (pr.1, pr.2.1)
          else traverseAux st maxh maxn rf nf (rest ++ pr.2.2)
            (current :: v) pr.1 pr.2.1)) ∧
    (∀ recs (nodes0 : List GNode) (rels0 : List GEdge)
        (acc0 : List (String × Nat)) (vis : List String),
      (∀ m ∈ (processRecords maxn hop vis recs nodes0 rels0 acc0).1,
        m ∈ nodes0 ∨
          ((∃ ropt, (some m, ropt) ∈ recs) ∧ vis.contains m.id = false)) ∧
      (∀ q ∈ (processRecords maxn hop vis recs nodes0 rels0 acc0).2.2,
        q ∈ acc0 ∨ ∃ m : GNode, q = (m.id, hop + 1) ∧
          (∃ ropt, (some m, ropt) ∈ recs) ∧ vis.contains m.id = false) ∧
      (∀ r ∈ (processRecords maxn hop vis recs nodes0 rels0 acc0).2.1,
        r ∈ rels0 ∨ ∃ mopt, (mopt, some r) ∈ recs)) ∧
    (∀ (m : GNode) (e : GEdge) (lim : Nat),
      (some m, some e) ∈ expandFromNode st current rf nf lim →
      e ∈ st.edges ∧ relFilterOk rf e = true ∧ nodeFilterOk nf m = true ∧
        ((e.src = current ∧ findNode st e.tgt = some m) ∨
         (e.tgt = current ∧ findNode st e.src = some m))) := by
  refine ⟨?_, ?_, ?_, ?_⟩
  · intro hg
    rw [traverseAux.eq_2, if_pos hg]
  · intro hg
    rw [traverseAux.eq_2, if_neg hg]
  · intro recs nodes0 rels0 acc0 vis
    exact ⟨processRecords_nodes_mem maxn hop vis recs nodes0 rels0 acc0,
      processRecords_queue_mem maxn hop vis recs nodes0 rels0 acc0,
      processRecords_rels_mem maxn hop vis recs nodes0 rels0 acc0⟩
  · intro m e lim h
    exact expandFromNode_mem st current rf nf lim m e h

/-- Witness for the amended C7 at concrete inputs: a hop beyond max_hops
is skipped, and a concrete fetched row of the pair fixture satisfies the
expansion characterization. -/
theorem traverse_step_characterization_witness :
    (traverseAux stPair 2 25 none none [("a", 5)] [] [] []
      = traverseAux stPair 2 25 none none [] [] [] []) ∧
    ((⟨"a", "R", "x", [("w", .num 1)]⟩ : GEdge) ∈ stPair.edges ∧
      relFilterOk none (⟨"a", "R", "x", [("w", .num 1)]⟩ : GEdge) = true ∧
      nodeFilterOk none (⟨"x", [], []⟩ : GNode) = true ∧
      (((⟨"a", "R", "x", [("w", .num 1)]⟩ : GEdge).src = "a" ∧
          findNode stPair (⟨"a", "R", "x", [("w", .num 1)]⟩ : GEdge).tgt
            = some ⟨"x", [], []⟩) ∨
       ((⟨"a", "R", "x", [("w", .num 1)]⟩ : GEdge).tgt = "a" ∧
          findNode stPair (⟨"a", "R", "x", [("w", .num 1)]⟩ : GEdge).src
            = some ⟨"x", [], []⟩))) :=
  ⟨(traverse_step_characterization stPair 2 25 none none "a" 5 [] [] []
      []).1 (by decide),
   (traverse_step_characterization stPair 2 25 none none "a" 0 [] [] []
      []).2.2.2 ⟨"x", [], []⟩ ⟨"a", "R", "x", [("w", .num 1)]⟩ 25
     (by decide)⟩

/-- Fixture for the merge claims: Persons a1 and b1, a message m1 and a
node x1; a1 has an outgoing AUTHORED edge to m1, an incoming LIKES edge
from x1, and both a1 and b1 carry a REL0 edge to m1 (so transferring the
a1 edge must not duplicate the b1 edge). -/
def stMerge : GraphState :=
  ⟨[⟨"a1", ["Person"], [("email", .str "alice@x.com"), ("name", .str "Alice")]⟩,
    ⟨"b1", ["Person"], [("email", .str "alicia@x.com"), ("name", .str "Alicia")]⟩,
    ⟨"m1", ["Message"], [("content", .str "hi")]⟩,
    ⟨"x1", ["User"], []⟩],
   [⟨"a1", "AUTHORED", "m1", [("weight", .num 1)]⟩,
    ⟨"x1", "LIKES", "a1", []⟩,
    ⟨"a1", "REL0", "m1", []⟩,
    ⟨"b1", "REL0", "m1", []⟩]⟩

/-- Witness for C5 at the concrete fixture: the outgoing AUTHORED edge and
the incoming LIKES edge of a1 end up on b1, and the edge b1 already had
(REL0 to m1) is not duplicated. -/
theorem merge_entities_transfers_witness :
    ∃ out, merge_entities envFuzzy stMerge "a1" "b1" "Person" "newer_wins"
        "2025-01-01" = .ok out ∧
      (∃ r ∈ out.state.edges,
        r.src = "b1" ∧ r.typ = "AUTHORED" ∧ r.tgt = "m1") ∧
      (∃ r ∈ out.state.edges,
        r.src = "x1" ∧ r.typ = "LIKES" ∧ r.tgt = "b1") ∧
      cntEdges out.state "b1" "REL0" "m1"
        = cntEdges stMerge "b1" "REL0" "m1" := by
  have hok : (merge_entities envFuzzy stMerge "a1" "b1" "Person" "newer_wins"
      "2025-01-01").isOk = true := by decide
  cases hEval : merge_entities envFuzzy stMerge "a1" "b1" "Person"
      "newer_wins" "2025-01-01" with
  | error e => rw [hEval] at hok; exact Bool.noConfusion hok
  | ok out =>
    have hspec := merge_entities_transfers envFuzzy stMerge "a1" "b1"
      "Person" "newer_wins" "2025-01-01" out hEval
    refine ⟨out, rfl, ?_, ?_, ?_⟩
    · exact hspec.1 ⟨"a1", "AUTHORED", "m1", [("weight", .num 1)]⟩
        (by decide) rfl (by decide)
    · exact hspec.2.1 ⟨"x1", "LIKES", "a1", []⟩ (by decide) rfl (by decide)
    · exact hspec.2.2 "b1" "REL0" "m1" (by decide)

/-- A candidate carrying only the email of the already-merged a1. -/
def mergedCandidate : EntityData :=
  { props := [("email", .str "alice@x.com")] }

/-- Evaluation for C2 at its failing input: after merging a1 into b1, the
source node a1 is marked merged=true / merged_into=b1, yet resolve_entity
on a candidate carrying the email of a1 still returns the merged node a1
as a live result — none of the four matching strategies filters out
merged nodes.  (The merged email stays on a1 because b1 keeps its own
non-empty email under newer_wins.) -/
theorem resolve_returns_merged_node :
    ((merge_entities envFuzzy stMerge "a1" "b1" "Person" "newer_wins"
        "2025-01-01").toOption).map (fun out =>
      ((findNodeByLabel out.state "Person" "a1").map (fun n =>
        (getProp n.props "merged", getProp n.props "merged_into")),
       (resolve_entity envFuzzy out.state mergedCandidate "Person").map
         (fun n => (n.id, getProp n.props "merged"))))
    = some (some (some (.bool true), some (.str "b1")),
            some ("a1", some (.bool true))) := by
  decide

/-- An LRU cache of capacity 2 and ttl 10 holding a then b, both set at
time 0. -/
def lruAB : LRUCache Nat :=
  (LRUCache.set { entries := [], max_size := 2, ttl := 10 } 0 "a" 1).set 0 "b" 2

/-- lruAB after a get of a at time 5 (which refreshes the recency of a)
and a set of the new key c at time 5 while the cache is full. -/
def lruAfterC : LRUCache Nat := ((lruAB.get 5 "a").2).set 5 "c" 3

/-- Counterexample to C9 as stated: with keys a then b inserted in that
order and a get of a before the evicting set of c, the evicted entry is
b, not the oldest-inserted entry a — the get moved a to the back of the
order, so eviction is least-recently-used, not oldest-inserted. -/
theorem lru_evicts_lru_not_oldest_inserted :
    (lruAfterC.get 6 "a").1 = some 1 ∧
    (lruAfterC.get 6 "b").1 = none ∧
    lruAfterC.entries.map (fun kv => kv.1) = ["a", "c"] := by
  decide

/-- C9 amended: the in-process cache is a bounded map with per-key expiry;
when set is called with a new key at capacity the evicted entry is the one
at the front of the order (the least recently refreshed entry — get and
re-set move an entry to the back, so this is the oldest-inserted entry
only when no later access refreshed it); expiry is checked lazily on
read: get on a key whose ttl has elapsed returns none and get on an
unexpired key returns the stored value. -/
theorem lru_bounded_lazy_expiry {α : Type} (c : LRUCache α) (now : Int)
    (key : String) (v : α) :
    (c.entries.any (fun kv => kv.1 == key) = false →
      c.max_size ≤ c.entries.length →
      (c.set now key v).entries = c.entries.tail ++ [(key, v, now + c.ttl)]) ∧
    (∀ w exp, c.entries.find? (fun kv => kv.1 == key) = some (key, w, exp) →
      (exp ≤ now → (c.get now key).1 = none) ∧
      (now < exp → (c.get now key).1 = some w)) := by
  constructor
  · intro hnew hfull
    unfold LRUCache.set
    simp [hnew, hfull]
  · intro w exp hfind
    constructor
    · intro hexp
      unfold LRUCache.get
      rw [hfind]
      simp only []
      rw [if_neg (by omega)]
    · intro hlt
      unfold LRUCache.get
      rw [hfind]
      simp only []
      rw [if_pos hlt]

/-- Witness for the amended C9 at concrete caches: eviction of the front
entry at capacity, get after expiry (entries set at time 0 with ttl 10,
read at time 10), and get before expiry. -/
theorem lru_bounded_lazy_expiry_witness :
    (lruAB.set 5 "c" 3).entries = lruAB.entries.tail ++ [("c", 3, 15)] ∧
    (lruAB.get 10 "a").1 = none ∧
    (lruAB.get 5 "a").1 = some 1 :=
  ⟨(lru_bounded_lazy_expiry lruAB 5 "c" 3).1 (by decide) (by decide),
   ((lru_bounded_lazy_expiry lruAB 10 "a" 0).2 1 10 (by decide)).1 (by decide),
   ((lru_bounded_lazy_expiry lruAB 5 "a" 0).2 1 10 (by decide)).2 (by decide)⟩

/-- A graph holding one node under a label unknown to the schema. -/
def stBogus : GraphState :=
  ⟨[⟨"x1", ["Bogus"], [("name", .str "Old")]⟩], []⟩

/-- Counterexample to C4 as stated: update_node performs no schema
validation — called with the unknown label Bogus it raises no validation
error, issues the store mutation (the node's property is rewritten) and
returns the updated node. -/
theorem update_node_skips_validation :
    nodeTypeProps "Bogus" = none ∧
    (update_node "Bogus" [("id", .str "x1")] [("name", .str "New")]
      stBogus).1 = ⟨[⟨"x1", ["Bogus"], [("name", .str "New")]⟩], []⟩ ∧
    (update_node "Bogus" [("id", .str "x1")] [("name", .str "New")]
      stBogus).2 = [⟨"x1", ["Bogus"], [("name", .str "New")]⟩] := by
  decide

/-- C4 amended: create_node, merge_node, create_relationship and
merge_relationship validate their label/type arguments against the schema
before any store call — an unknown node label, a property outside the
allowed set, an unknown relationship type, a source/target label pair not
declared valid, or a disallowed relationship property each raise a
validation error, and the error path constructs no new state, so no store
mutation is performed; update_node is the exception and performs no schema
validation (see the counterexample). -/
theorem graph_adapter_validates (st : GraphState) :
    (∀ label props, nodeTypeProps label = none →
      create_node label props st = .error ("Unknown node type: " ++ label) ∧
      merge_node label props st = .error ("Unknown node type: " ++ label)) ∧
    (∀ label props allowed, nodeTypeProps label = some allowed →
      props.any (fun kv => !(allowed.contains kv.1)) = true →
      (∃ m, create_node label props st = .error m) ∧
      (∃ m, merge_node label props st = .error m)) ∧
    (∀ fl tl rt fp tp rp, relTypeInfo rt = none →
      create_relationship fl tl rt fp tp rp st
        = .error ("Unknown relationship type: " ++ rt) ∧
      merge_relationship fl tl rt fp tp rp st
        = .error ("Unknown relationship type: " ++ rt)) ∧
    (∀ fl tl rt fp tp rp info, relTypeInfo rt = some info →
      (info.valid_sources.contains fl = false ∨
        info.valid_targets.contains tl = false) →
      (∃ m, create_relationship fl tl rt fp tp rp st = .error m) ∧
      (∃ m, merge_relationship fl tl rt fp tp rp st = .error m)) ∧
    (∀ fl tl rt fp tp rp info, relTypeInfo rt = some info →
      info.valid_sources.contains fl = true →
      info.valid_targets.contains tl = true →
      rp.any (fun kv => !(info.properties.contains kv.1)) = true →
      (∃ m, create_relationship fl tl rt fp tp rp st = .error m) ∧
      (∃ m, merge_relationship fl tl rt fp tp rp st = .error m)) := by
  refine ⟨?_, ?_, ?_, ?_, ?_⟩
  · intro label props h
    constructor
    · unfold create_node; rw [h]
    · unfold merge_node; rw [h]
  · intro label props allowed hlabel hany
    have hfind : ∃ kv, props.find? (fun kv => !(allowed.contains kv.1))
        = some kv := by
      rcases List.any_eq_true.mp hany with ⟨kv, hkv, hbad⟩
      cases hf : props.find? (fun kv => !(allowed.contains kv.1)) with
      | some kv2 => exact ⟨kv2, rfl⟩
      | none => exact absurd hbad (by simpa using List.find?_eq_none.mp hf kv hkv)
    rcases hfind with ⟨kv, hfind⟩
    constructor
    · refine ⟨"Invalid property " ++ kv.1 ++ " for node type " ++ label, ?_⟩
      unfold create_node
      rw [hlabel]
      dsimp only
      rw [hfind]
    · refine ⟨"Invalid property " ++ kv.1 ++ " for node type " ++ label, ?_⟩
      unfold merge_node
      rw [hlabel]
      dsimp only
      rw [hfind]
  · intro fl tl rt fp tp rp h
    constructor
    · unfold create_relationship; rw [h]
    · unfold merge_relationship; rw [h]
  · intro fl tl rt fp tp rp info hinfo hbad
    have hcond : (!(info.valid_sources.contains fl) ||
        !(info.valid_targets.contains tl)) = true := by
      rcases hbad with h | h
      · rw [h]; rfl
      · rw [h]; cases info.valid_sources.contains fl <;> rfl
    constructor
    · refine ⟨"Invalid source/target for relationship " ++ rt ++ ": " ++ fl
        ++ " -> " ++ tl, ?_⟩
      unfold create_relationship
      rw [hinfo]
      dsimp only
      rw [if_pos hcond]
    · refine ⟨"Invalid source/target for relationship " ++ rt ++ ": " ++ fl
        ++ " -> " ++ tl, ?_⟩
      unfold merge_relationship
      rw [hinfo]
      dsimp only
      rw [if_pos hcond]
  · intro fl tl rt fp tp rp info hinfo hsrc htgt hany
    have hcond : (!(info.valid_sources.contains fl) ||
        !(info.valid_targets.contains tl)) = false := by
      rw [hsrc, htgt]; rfl
    have hfind : ∃ kv, rp.find? (fun kv => !(info.properties.contains kv.1))
        = some kv := by
      rcases List.any_eq_true.mp hany with ⟨kv, hkv, hbadp⟩
      cases hf : rp.find? (fun kv => !(info.properties.contains kv.1)) with
      | some kv2 => exact ⟨kv2, rfl⟩
      | none => exact absurd hbadp (by simpa using List.find?_eq_none.mp hf kv hkv)
    rcases hfind with ⟨kv, hfind⟩
    constructor
    · refine ⟨"Invalid property " ++ kv.1 ++ " for relationship type "
        ++ rt, ?_⟩
      unfold create_relationship
      rw [hinfo]
      dsimp only
      rw [if_neg (by rw [hcond]; exact Bool.false_ne_true), hfind]
    · refine ⟨"Invalid property " ++ kv.1 ++ " for relationship type "
        ++ rt, ?_⟩
      unfold merge_relationship
      rw [hinfo]
      dsimp only
      rw [if_neg (by rw [hcond]; exact Bool.false_ne_true), hfind]

/-- Witness for the amended C4 at concrete inputs: unknown label Bogus,
disallowed property title on Skill, unknown relationship type
FRIENDS_WITH, invalid pair Person to Task for DEPENDS_ON, and disallowed
relationship property weight on DEPENDS_ON. -/
theorem graph_adapter_validates_witness :
    (create_node "Bogus" [] stBogus
      = .error ("Unknown node type: " ++ "Bogus") ∧
     merge_node "Bogus" [] stBogus
      = .error ("Unknown node type: " ++ "Bogus")) ∧
    (∃ m, create_node "Skill" [("title", .str "x")] stBogus = .error m) ∧
    (create_relationship "Person" "Task" "FRIENDS_WITH" [] [] [] stBogus
      = .error ("Unknown relationship type: " ++ "FRIENDS_WITH")) ∧
    (∃ m, create_relationship "Person" "Task" "DEPENDS_ON" [] [] [] stBogus
      = .error m) ∧
    (∃ m, merge_relationship "Task" "Task" "DEPENDS_ON" [] []
      [("weight", .num 1)] stBogus = .error m) :=
  ⟨(graph_adapter_validates stBogus).1 "Bogus" [] (by decide),
   ((graph_adapter_validates stBogus).2.1 "Skill" [("title", .str "x")]
     ["id", "name", "category", "created_at"] (by decide) (by decide)).1,
   ((graph_adapter_validates stBogus).2.2.1 "Person" "Task" "FRIENDS_WITH"
     [] [] [] (by decide)).1,
   ((graph_adapter_validates stBogus).2.2.2.1 "Person" "Task" "DEPENDS_ON"
     [] [] [] ⟨["Task"], ["Task"], ["dependency_type", "blocking"]⟩
     (by decide) (Or.inl (by decide))).1,
   ((graph_adapter_validates stBogus).2.2.2.2 "Task" "Task" "DEPENDS_ON"
     [] [] [("weight", .num 1)]
     ⟨["Task"], ["Task"], ["dependency_type", "blocking"]⟩
     (by decide) (by decide) (by decide) (by decide)).2⟩

/-- C1: resolve_entity applies the four matching strategies in strict
priority order — identifiers, fuzzy name, embedding, relationship overlap
— returning the result of the first strategy that yields a hit; an
identifier hit is returned even when the fuzzy-name strategy would also
match, and when all four strategies yield no hit the result is None. -/
theorem resolve_entity_strategy_order (env : Env) (st : GraphState)
    (d : EntityData) (t : String) :
    (∀ e, match_by_identifiers st d t = some e →
      resolve_entity env st d t = some e) ∧
    (match_by_identifiers st d t = none →
      ∀ e, match_by_fuzzy_name env st d t = some e →
        resolve_entity env st d t = some e) ∧
    (match_by_identifiers st d t = none →
      match_by_fuzzy_name env st d t = none →
      ∀ e, match_by_embedding env st d t = some e →
        resolve_entity env st d t = some e) ∧
    (match_by_identifiers st d t = none →
      match_by_fuzzy_name env st d t = none →
      match_by_embedding env st d t = none →
      resolve_entity env st d t = match_by_relationships st d t) ∧
    (match_by_identifiers st d t = none →
      match_by_fuzzy_name env st d t = none →
      match_by_embedding env st d t = none →
      match_by_relationships st d t = none →
      resolve_entity env st d t = none) := by
  refine ⟨?_, ?_, ?_, ?_, ?_⟩
  · intro e h1
    simp [resolve_entity, h1]
  · intro h1 e h2
    simp [resolve_entity, h1, h2]
  · intro h1 h2 e h3
    simp [resolve_entity, h1, h2, h3]
  · intro h1 h2 h3
    simp only [resolve_entity, h1, h2, h3]
    cases match_by_relationships st d t <;> rfl
  · intro h1 h2 h3 h4
    simp [resolve_entity, h1, h2, h3, h4]

/-- Witness for C1: a candidate that matches the same node by identifier
and by fuzzy name resolves to the identifier hit. -/
theorem resolve_entity_strategy_order_witness :
    match_by_identifiers stBob bobCandidate "Person" = some bobNode ∧
    match_by_fuzzy_name envFuzzy stBob bobCandidate "Person" = some bobNode ∧
    resolve_entity envFuzzy stBob bobCandidate "Person" = some bobNode :=
  ⟨by decide, by decide,
   (resolve_entity_strategy_order envFuzzy stBob bobCandidate "Person").1
     bobNode (by decide)⟩

theorem update_node_with_cache_absent (gst : GraphState) (ctx : CacheCtx)
    (now : Int) (node_id node_type : String) (properties : Props) :
    absentBoth (update_node_with_cache gst ctx node_id node_type properties).2
      now (node_type ++ ":" ++ node_id) := by
  unfold update_node_with_cache
  dsimp only
  split
  · exact ⟨lruAbsent_delete_self _ _, rfl⟩
  · exact absentBoth_invalidate_self _ _ _ _

theorem update_node_with_cache_flush (gst : GraphState) (ctx : CacheCtx)
    (node_id node_type : String) (properties : Props)
    (h : (match getProp properties "relationships" with
      | some v => v.truthy
      | none => false) = true) :
    (update_node_with_cache gst ctx node_id node_type
      properties).2.redis_cache = [] := by
  unfold update_node_with_cache
  dsimp only
  split
  · rfl
  next hfalse => exact absurd h hfalse

theorem redisSet_find_self (rs : RedisState) (now : Int) (key : String)
    (v : RVal) (ttl : Option Int) :
    (redisSet rs now key v ttl).find? (fun e => e.key == key)
      = some ⟨key, v, ttl.map (fun t => now + t)⟩ := by
  unfold redisSet
  rw [List.find?_append]
  have hleft : (List.find? (fun e => e.key == key)
      (rs.filter (fun e => !(e.key == key)))) = none := by
    rw [List.find?_eq_none]
    intro x hx
    have h2 := (List.mem_filter.mp hx).2
    rw [Bool.not_eq_true'] at h2
    rw [Bool.not_eq_true]
    exact h2
  rw [hleft]
  simp only [Option.none_or]
  exact List.find?_cons_of_pos _ (by simp)

/-- A cache context whose two tiers both hold an entry for bobNode under
its node key. -/
def ctxW : CacheCtx :=
  { node_cache := ⟨[("Person:p1", bobNode, 100)], 1000, 1800⟩
    embedding_cache := ⟨[], 5000, 3600⟩
    redis_cache := [⟨"Person:p1", RVal.node bobNode, none⟩] }

/-- A cache context with both tiers empty. -/
def ctxE : CacheCtx :=
  { node_cache := ⟨[], 1000, 1800⟩
    embedding_cache := ⟨[], 5000, 3600⟩
    redis_cache := [] }

/-- Intent-model analysis supporting the C3 divergence record: were the
collaborator calls repaired (bound redis_cache, matching arities, a real
execute_query), the invalidation logic as written would satisfy the
spec: by the time each write path returns, the written node key is gone
from both cache tiers.  update_node_with_cache leaves the node key
absent from the in-process node cache and the distributed tier, flushes
the whole distributed (operation-result) tier when the write carries a
truthy relationships property, and a read issued after it returns is
served from the store, never from a cache;
create_relationship_with_cache leaves both endpoint keys absent from
the node cache and flushes the distributed tier entirely; archive_nodes
leaves every archived id key absent from both tiers (given that
distributed entries stored under node keys hold node records, as the
read-through population path guarantees).  The executed code reaches
none of this: see write_paths_raise_before_invalidating. -/
theorem write_paths_invalidate_caches (gst : GraphState) (ctx : CacheCtx)
    (now : Int) (nowStr : String) :
    (∀ node_id node_type properties,
      absentBoth (update_node_with_cache gst ctx node_id node_type
          properties).2 now (node_type ++ ":" ++ node_id) ∧
      ((match getProp properties "relationships" with
        | some v => v.truthy
        | none => false) = true →
        (update_node_with_cache gst ctx node_id node_type
          properties).2.redis_cache = []) ∧
      (get_node_with_cache
          (update_node_with_cache gst ctx node_id node_type properties).1
          (update_node_with_cache gst ctx node_id node_type properties).2
          now nowStr node_id node_type).1
        = get_node
            (update_node_with_cache gst ctx node_id node_type properties).1
            node_type [("id", .str node_id)]) ∧
    (∀ source_id source_type target_id target_type rel_type properties,
      absentBoth (create_relationship_with_cache gst ctx source_id
          source_type target_id target_type rel_type properties).2 now
        (source_type ++ ":" ++ source_id) ∧
      absentBoth (create_relationship_with_cache gst ctx source_id
          source_type target_id target_type rel_type properties).2 now
        (target_type ++ ":" ++ target_id) ∧
      (create_relationship_with_cache gst ctx source_id source_type
        target_id target_type rel_type properties).2.redis_cache = []) ∧
    (∀ env node_batch entity_type,
      (∀ i ∈ node_batch, ∀ e ∈ ctx.redis_cache,
        e.key = entity_type ++ ":" ++ i → ∃ n, e.val = RVal.node n) →
      ∀ i ∈ node_batch,
        absentBoth (archive_nodes env gst ctx now nowStr node_batch
          entity_type).2 now (entity_type ++ ":" ++ i)) := by
  refine ⟨?_, ?_, ?_⟩
  · intro node_id node_type properties
    refine ⟨update_node_with_cache_absent gst ctx now node_id node_type
        properties,
      update_node_with_cache_flush gst ctx node_id node_type properties,
      get_node_with_cache_miss _ _ _ _ _ _
        (update_node_with_cache_absent gst ctx now node_id node_type
          properties)⟩
  · intro source_id source_type target_id target_type rel_type properties
    exact ⟨⟨lruAbsent_delete _ _ _ (lruAbsent_delete_self ctx.node_cache _),
        rfl⟩,
      ⟨lruAbsent_delete_self _ _, rfl⟩, rfl⟩
  · intro env node_batch entity_type hP
    exact archive_nodes_absent env entity_type now nowStr node_batch
      (gst, ctx) hP

/-- Concrete instance of the intent-model analysis: after updating
bobNode with a truthy relationships property both cache tiers drop the
Person:p1 key and the distributed tier is emptied; archiving p1 likewise
clears the key from both tiers. -/
theorem write_paths_invalidate_caches_witness :
    absentBoth (update_node_with_cache stBob ctxW "p1" "Person"
      [("relationships", PVal.bool true)]).2 0 ("Person" ++ ":" ++ "p1") ∧
    (update_node_with_cache stBob ctxW "p1" "Person"
      [("relationships", PVal.bool true)]).2.redis_cache = [] ∧
    absentBoth (archive_nodes envFuzzy stBob ctxW 0 "now" ["p1"]
      "Person").2 0 ("Person" ++ ":" ++ "p1") := by
  refine ⟨?_, ?_, ?_⟩
  · exact ((write_paths_invalidate_caches stBob ctxW 0 "now").1 "p1"
      "Person" [("relationships", PVal.bool true)]).1
  · exact ((write_paths_invalidate_caches stBob ctxW 0 "now").1 "p1"
      "Person" [("relationships", PVal.bool true)]).2.1 (by decide)
  · exact (write_paths_invalidate_caches stBob ctxW 0 "now").2.2 envFuzzy
      ["p1"] "Person"
      (by
        intro i hi e he hk
        rw [List.mem_singleton.mp he]
        exact ⟨bobNode, rfl⟩)
      "p1" (by decide)

/-- Intent-model analysis supporting the C8 divergence record: were
redis_cache bound, hybrid_search as written would return an
operation-cache hit unchanged; on a miss with an empty filtered
vector-hit set it would return the empty hybrid context with output
independent of the graph (no traversal); and any miss result would be
stored under the hybrid_search:query:filters:max_hops key with absolute
expiry now + 600 before being returned.  The executed code raises on
its second statement instead: see hybrid_search_raises_name_error. -/
theorem hybrid_search_cache_contract (cfg : EngineCfg) (env : Env)
    (gst : GraphState) (ctx : CacheCtx) (now : Int) (query_text : String)
    (filters : Option Props) (max_hops : Nat) :
    ∀ op_key, op_key = "hybrid_search:" ++ query_text ++ ":"
        ++ filtersRepr filters ++ ":" ++ toString max_hops →
    (∀ v, get_operation_cache ctx now op_key = some v →
      hybrid_search cfg env gst ctx now query_text filters max_hops
        = (v, ctx)) ∧
    (get_operation_cache ctx now op_key = none →
      ((semantic_search cfg env ctx now query_text filters).1 = [] →
        (hybrid_search cfg env gst ctx now query_text filters max_hops).1
          = RVal.hybrid ⟨[], [], [], []⟩ ∧
        ∀ gst2, hybrid_search cfg env gst2 ctx now query_text filters
            max_hops
          = hybrid_search cfg env gst ctx now query_text filters
              max_hops) ∧
      (hybrid_search cfg env gst ctx now query_text filters
          max_hops).2.redis_cache.find? (fun e => e.key == op_key)
        = some ⟨op_key,
            (hybrid_search cfg env gst ctx now query_text filters
              max_hops).1,
            some (now + 600)⟩) := by
  intro op_key hkey
  subst hkey
  constructor
  · intro v hv
    unfold hybrid_search
    dsimp only
    rw [hv]
  · intro hmiss
    constructor
    · intro hemp
      have hseeds : ((semantic_search cfg env ctx now query_text
          filters).1.map (fun h => h.id)).isEmpty = true := by
        rw [hemp]
        rfl
      constructor
      · unfold hybrid_search
        dsimp only
        rw [hmiss]
        dsimp only
        rw [if_pos hseeds]
      · intro gst2
        unfold hybrid_search
        dsimp only
        rw [hmiss]
        dsimp only
        rw [if_pos hseeds, if_pos hseeds]
    · unfold hybrid_search
      dsimp only
      rw [hmiss]
      dsimp only
      by_cases hseeds : ((semantic_search cfg env ctx now query_text
          filters).1.map (fun h => h.id)).isEmpty = true
      · rw [if_pos hseeds]
        exact redisSet_find_self _ _ _ _ _
      · rw [if_neg hseeds]
        exact redisSet_find_self _ _ _ _ _

/-- Concrete instance of the intent-model analysis: with an empty
operation cache and a vector search that returns no hits, the intended
hybrid_search yields the empty hybrid context and caches it under its
operation key with expiry 0 + 600. -/
theorem hybrid_search_cache_contract_witness :
    (hybrid_search {} envFuzzy stBob ctxE 0 "q" none 2).1
      = RVal.hybrid ⟨[], [], [], []⟩ ∧
    (hybrid_search {} envFuzzy stBob ctxE 0 "q" none
        2).2.redis_cache.find? (fun e => e.key == "hybrid_search:" ++ "q"
          ++ ":" ++ filtersRepr none ++ ":" ++ toString 2)
      = some ⟨"hybrid_search:" ++ "q" ++ ":" ++ filtersRepr none ++ ":"
          ++ toString 2,
          (hybrid_search {} envFuzzy stBob ctxE 0 "q" none 2).1,
          some (0 + 600)⟩ := by
  have h := hybrid_search_cache_contract {} envFuzzy stBob ctxE 0 "q"
    none 2 ("hybrid_search:" ++ "q" ++ ":" ++ filtersRepr none ++ ":"
      ++ toString 2) rfl
  exact ⟨((h.2 (by decide)).1 (by decide)).1, (h.2 (by decide)).2⟩

/-- C3: as executed, no write path invalidates the caches, because each
raises before its invalidation statements run.  update_node_with_cache
raises TypeError at its first statement (graph_db.update_node receives
two positional arguments for three parameters), regardless of the module
state; create_relationship_with_cache raises TypeError at its first
statement (four arguments for five required parameters); and
archive_nodes on any nonempty batch raises inside its first cache read
(AttributeError from the nonexistent graph_db.execute_query on a
node-cache hit, NameError from the unbound redis_cache on a miss), so
the claim that both cache tiers are clear of the written key by the time
the call returns holds for no write path - the calls never return. -/
theorem write_paths_raise_before_invalidating (gst : GraphState)
    (now : Int) :
    (∀ (m : RagModule) node_id node_type properties,
      update_node_with_cacheRun gst m node_id node_type properties
        = Except.error (.typeError
            "update_node() missing 1 required positional argument: update_props")) ∧
    (∀ (m : RagModule) source_id source_type target_id target_type
        rel_type properties,
      create_relationship_with_cacheRun gst m source_id source_type
          target_id target_type rel_type properties
        = Except.error (.typeError
            "create_relationship() missing 1 required positional argument: to_props")) ∧
    (∀ (env : Env) (nc : LRUCache GNode) (ec : LRUCache (List Rat))
        (i : String) (rest : List String) (entity_type : String),
      ∃ e, archive_nodesRun env gst ⟨nc, ec, none⟩ now (i :: rest)
          entity_type = Except.error e) := by
  refine ⟨fun m node_id node_type properties => rfl,
    fun m a b c d e f => rfl, ?_⟩
  intro env nc ec i rest entity_type
  cases hg : (nc.get now (entity_type ++ ":" ++ i)).1 with
  | some cached =>
    refine ⟨.attributeError "execute_query", ?_⟩
    have h1 : get_node_with_cacheRun gst ⟨nc, ec, none⟩ now i entity_type
        = Except.error (.attributeError "execute_query") := by
      unfold get_node_with_cacheRun
      dsimp only
      rw [hg]
      rfl
    have h2 : archiveOneRun env entity_type now (gst, ⟨nc, ec, none⟩) i
        = Except.error (.attributeError "execute_query") := by
      unfold archiveOneRun
      dsimp only
      rw [h1]
      rfl
    unfold archive_nodesRun
    rw [List.foldlM_cons, h2]
    rfl
  | none =>
    refine ⟨.nameError "redis_cache", ?_⟩
    have h1 : get_node_with_cacheRun gst ⟨nc, ec, none⟩ now i entity_type
        = Except.error (.nameError "redis_cache") := by
      unfold get_node_with_cacheRun
      dsimp only
      rw [hg]
      rfl
    have h2 : archiveOneRun env entity_type now (gst, ⟨nc, ec, none⟩) i
        = Except.error (.nameError "redis_cache") := by
      unfold archiveOneRun
      dsimp only
      rw [h1]
      rfl
    unfold archive_nodesRun
    rw [List.foldlM_cons, h2]
    rfl

/-- C8: as executed, hybrid_search never reaches its cache check,
search, short-circuit, traversal or caching logic: its second statement
calls get_operation_cache, whose body reads the unbound module name
redis_cache, so every call raises NameError whatever the engine
configuration, graph, query, filters or hop bound. -/
theorem hybrid_search_raises_name_error (cfg : EngineCfg) (env : Env)
    (gst : GraphState) (nc : LRUCache GNode) (ec : LRUCache (List Rat))
    (now : Int) (query_text : String) (filters : Option Props)
    (max_hops : Nat) :
    hybrid_searchRun cfg env gst ⟨nc, ec, none⟩ now query_text filters
        max_hops
      = Except.error (.nameError "redis_cache") := rfl

end GraphRAG
